import Mathlib

/-!
# Shallow embedding of the Go engine

This file embeds the core of the Go engine (the complete draft in
`engine_DEPRECATED/src/board.rs` together with the Monte-Carlo search in
`src/engine.rs`, plus the `update`-message layer of the newer draft in
`src/update.rs`) as executable Lean definitions, and proves or refutes the
frozen specification claims about it.

Modelling conventions:
* Rust `u16`/`usize` values become `Nat`.  All arithmetic in the embedded
  functions operates on values far below `2^16`/`2^64`; the only place the
  source checks for machine-integer overflow (`add_signed_to_unsigned`) is
  modelled with the explicit `usize` bound.
* `f64` values (komi, scores, thresholds) become `ℚ`.  Every float operation
  the claims exercise is subtraction/comparison of integers and halves, which
  is exact in `f64`, so the rational model is faithful on these values.
* Rust `HashSet` values become `List`s with insert-if-absent semantics
  (prepending the fresh element); the source only observes membership,
  cardinality and set iteration whose order does not affect the observable
  result, so the list order — unspecified for a `HashSet` anyway — is
  irrelevant.  `Vec`s of the newer draft, whose order is observable, keep
  their push order.
* Recursive flood fills use a fuel argument whose initial value strictly
  exceeds the maximal possible recursion depth / iteration count, so the
  zero-fuel branch is unreachable on well-formed boards.
* Out-of-bounds vector indexing (which would panic in Rust, and is
  unreachable in the source on well-formed boards) is modelled with
  `List.getD` returning the `OFFBOARD` sentinel.
-/

namespace GoEngine

set_option maxRecDepth 400000
set_option maxHeartbeats 1000000

/-- Stone colors (`board.rs`, `enum Color`). -/
inductive Color where
  | WHITE
  | BLACK
  deriving DecidableEq, Repr

/-- Intersection states (`board.rs`, `enum State`). -/
inductive State where
  | OCCUPIED (c : Color)
  | EMPTY
  | OFFBOARD
  deriving DecidableEq, Repr

/-- Valid board sizes (`board.rs`, `enum BoardSize`). -/
inductive BoardSize where
  | NINE
  | THIRTEEN
  | NINETEEN
  deriving DecidableEq, Repr, Fintype

/-- Column identifiers A..T skipping I (`board.rs`, `enum ColumnIdentifier`). -/
inductive ColumnIdentifier where
  | A | B | C | D | E | F | G | H | J | K
  | L | M | N | O | P | Q | R | S | T
  deriving DecidableEq, Repr, Fintype

/-- A playable intersection: column identifier plus 1-based row
(`board.rs`, `struct Intersection`). -/
structure Intersection where
  column : ColumnIdentifier
  row : Nat
  deriving DecidableEq, Repr

/-- Moves performed on a board (`board.rs`, `enum Move`). -/
inductive Move where
  | PASS
  | MOVE (i : Intersection) (c : Color)
  | RESIGN
  deriving DecidableEq, Repr

/-- The Go board structure (`board.rs`, `struct Board`).  The flat `position`
vector of length `(size+2)²` includes the offboard sentinel border. -/
structure Board where
  size : BoardSize
  position : List State
  side : Color
  ko : Option Intersection
  komi : ℚ
  lastMove : Move
  whiteCaptures : Nat
  blackCaptures : Nat
  moveNumber : Nat
  deriving DecidableEq, Repr

/-- `BoardSize::to_u16` (`board.rs`). -/
def BoardSize.toNat : BoardSize → Nat
  | BoardSize.NINE => 9
  | BoardSize.THIRTEEN => 13
  | BoardSize.NINETEEN => 19

/-- `BoardSize::from_u16` (`board.rs`). -/
def BoardSize.fromNat : Nat → Option BoardSize
  | 9 => some BoardSize.NINE
  | 13 => some BoardSize.THIRTEEN
  | 19 => some BoardSize.NINETEEN
  | _ => none

/-- `ColumnIdentifier::to_u16` (`board.rs`). -/
def ColumnIdentifier.toNat : ColumnIdentifier → Nat
  | ColumnIdentifier.A => 0
  | ColumnIdentifier.B => 1
  | ColumnIdentifier.C => 2
  | ColumnIdentifier.D => 3
  | ColumnIdentifier.E => 4
  | ColumnIdentifier.F => 5
  | ColumnIdentifier.G => 6
  | ColumnIdentifier.H => 7
  | ColumnIdentifier.J => 8
  | ColumnIdentifier.K => 9
  | ColumnIdentifier.L => 10
  | ColumnIdentifier.M => 11
  | ColumnIdentifier.N => 12
  | ColumnIdentifier.O => 13
  | ColumnIdentifier.P => 14
  | ColumnIdentifier.Q => 15
  | ColumnIdentifier.R => 16
  | ColumnIdentifier.S => 17
  | ColumnIdentifier.T => 18

/-- `ColumnIdentifier::from_u16` (`board.rs`). -/
def ColumnIdentifier.fromNat : Nat → Option ColumnIdentifier
  | 0 => some ColumnIdentifier.A
  | 1 => some ColumnIdentifier.B
  | 2 => some ColumnIdentifier.C
  | 3 => some ColumnIdentifier.D
  | 4 => some ColumnIdentifier.E
  | 5 => some ColumnIdentifier.F
  | 6 => some ColumnIdentifier.G
  | 7 => some ColumnIdentifier.H
  | 8 => some ColumnIdentifier.J
  | 9 => some ColumnIdentifier.K
  | 10 => some ColumnIdentifier.L
  | 11 => some ColumnIdentifier.M
  | 12 => some ColumnIdentifier.N
  | 13 => some ColumnIdentifier.O
  | 14 => some ColumnIdentifier.P
  | 15 => some ColumnIdentifier.Q
  | 16 => some ColumnIdentifier.R
  | 17 => some ColumnIdentifier.S
  | 18 => some ColumnIdentifier.T
  | _ => none

/-- `Color::opposite_color` (`board.rs`). -/
def Color.opposite : Color → Color
  | Color.WHITE => Color.BLACK
  | Color.BLACK => Color.WHITE

/-- `Intersection::to_position_index` (`board.rs` lines 387-397): converts an
intersection into its flat index on a board of the given size, rejecting
out-of-range coordinates. -/
def Intersection.toPositionIndex (i : Intersection) (size : BoardSize) : Option Nat :=
  let positionLength := size.toNat + 2
  let columnIndex := i.column.toNat
  if columnIndex ≥ size.toNat ∨ i.row > size.toNat ∨ i.row = 0 then
    none
  else
    let rowIndex := (positionLength - i.row - 1) * positionLength
    some (columnIndex + rowIndex + 1)

/-- `Intersection::from_position_index` (`board.rs` lines 401-422): converts a
flat index back into an intersection, rejecting indices outside the array or
landing in the offboard border ring.  The source `unwrap`s the inner
`ColumnIdentifier::from_u16`, which cannot fail because `col - 1 < size`; the
model keeps the same behaviour through the always-`some` match. -/
def Intersection.fromPositionIndex (positionIndex : Nat) (size : BoardSize) :
    Option Intersection :=
  let positionLength := size.toNat + 2
  if positionIndex ≥ positionLength * positionLength then
    none
  else
    let col := positionIndex % positionLength
    let row := positionIndex / positionLength
    if col = 0 ∨ col = positionLength - 1 ∨ row = 0 ∨ row = positionLength - 1 then
      none
    else
      match ColumnIdentifier.fromNat (col - 1) with
      | some c => some { column := c, row := positionLength - row - 1 }
      | none => none

/-- `usize::MAX`. -/
def USIZE_MAX : Nat := 2 ^ 64 - 1

/-- `add_signed_to_unsigned` (`board.rs` lines 223-247) at `U = usize`,
`S = i16`: adds a signed offset to an unsigned base, returning `none` on
overflow or underflow. -/
def addSignedToUnsigned (base : Nat) (toAdd : Int) : Option Nat :=
  if 0 ≤ toAdd then
    let addU := toAdd.toNat
    if USIZE_MAX - addU < base then none
    else some (base + addU)
  else
    let subU := toAdd.natAbs
    if subU > base then none
    else some (base - subU)

/-- `Board::empty_board` (`board.rs` lines 156-169): the flat vector of an
empty board, `OFFBOARD` on the border ring and `EMPTY` inside.  The source's
double loop pushes cell `(row, col)` at index `row * (size+2) + col`; the model
produces the same list by mapping over the range of indices. -/
def emptyBoard (size : Nat) : List State :=
  (List.range ((size + 2) * (size + 2))).map fun i =>
    let row := i / (size + 2)
    let col := i % (size + 2)
    if row = 0 ∨ row = size + 1 ∨ col = 0 ∨ col = size + 1 then
      State.OFFBOARD
    else
      State.EMPTY

/-- The default komi `6.5` (`board.rs` line 147), stored as a rational in
normalized constructor form so that equality on boards is effectively
computable. -/
def defaultKomi : ℚ := ⟨13, 2, by decide, by decide⟩

/-- `Board::new` (`board.rs` lines 140-153). -/
def Board.new (size : BoardSize) : Board :=
  { size := size
    position := emptyBoard size.toNat
    side := Color.BLACK
    ko := none
    komi := defaultKomi
    lastMove := Move.PASS
    whiteCaptures := 0
    blackCaptures := 0
    moveNumber := 0 }

/-- `Board::deepcopy` (`board.rs` lines 173-190): in the pure model a deep copy
is the value itself (the source clones every field, producing an equal,
unaliased board). -/
def Board.deepcopy (b : Board) : Board := b

/-- Reads the state stored at a flat index, `OFFBOARD` when out of range.
The source indexes the vector directly; every index it reaches on a
well-formed board is in range, so the default is unreachable there. -/
def Board.stateAt (b : Board) (idx : Nat) : State :=
  b.position.getD idx State.OFFBOARD

/-- Well-formedness invariant of a board, guaranteed by construction in the
source: the position vector has length `(size+2)²` and every index in the
offboard border ring (or outside the vector) holds `OFFBOARD`. -/
def Board.WF (b : Board) : Prop :=
  b.position.length = (b.size.toNat + 2) * (b.size.toNat + 2) ∧
  ∀ j < b.position.length,
    (j % (b.size.toNat + 2) = 0 ∨ j % (b.size.toNat + 2) = b.size.toNat + 1 ∨
     j / (b.size.toNat + 2) = 0 ∨ j / (b.size.toNat + 2) = b.size.toNat + 1) →
    b.position.getD j State.OFFBOARD = State.OFFBOARD

instance (b : Board) : Decidable b.WF := by
  unfold Board.WF; infer_instance

/-- Recursive helper of `Board::count` (`board.rs` lines 547-588): depth-first
flood fill that collects the same-colored connected stones reachable from
`idx` and the empty intersections adjacent to them.  The two accumulated
`HashSet`s become lists with insert-if-absent semantics, threaded through the
four recursive calls in source order (+1, -1, +stride, -stride; note the Rust
`usize` subtractions never underflow on the indices this is called with).
`fuel` strictly exceeds the possible nesting depth (each nested call first
inserts a fresh intersection into `group`), so the zero branch is never taken
when called from `Board.count`.  The source `unwrap`s
`from_position_index`, which succeeds on every index it reaches on a
well-formed board; the model returns the accumulators unchanged in that
unreachable case. -/
def countHelp (b : Board) (color : Color) :
    Nat → Nat → List Intersection → List Intersection →
    List Intersection × List Intersection
  | 0, _, group, liberties => (group, liberties)
  | Nat.succ fuel, idx, group, liberties =>
    match b.stateAt idx with
    | State.OCCUPIED c =>
      if c = color then
        match Intersection.fromPositionIndex idx b.size with
        | none => (group, liberties)
        | some intsc =>
          if intsc ∈ group then (group, liberties)
          else
            let acc1 := countHelp b color fuel (idx + 1) (intsc :: group) liberties
            let acc2 := countHelp b color fuel (idx - 1) acc1.1 acc1.2
            let acc3 := countHelp b color fuel (idx + (b.size.toNat + 2)) acc2.1 acc2.2
            countHelp b color fuel (idx - (b.size.toNat + 2)) acc3.1 acc3.2
      else (group, liberties)
    | State.EMPTY =>
      match Intersection.fromPositionIndex idx b.size with
      | none => (group, liberties)
      | some intsc =>
        if intsc ∈ liberties then (group, liberties)
        else (group, intsc :: liberties)
    | State.OFFBOARD => (group, liberties)

/-- `Board::count` (`board.rs` lines 533-544): the group of `color` stones
containing the stone at `idx` together with its liberties. -/
def Board.count (b : Board) (idx : Nat) (color : Color) :
    List Intersection × List Intersection :=
  countHelp b color (b.position.length + 1) idx [] []

/-- `Board::capture_group` (`board.rs` lines 593-606): removes every stone of
the group from the board and credits the capturing color with the group's
size. -/
def Board.captureGroup (b : Board) (group : List Intersection) (color : Color) :
    Board :=
  let stones := group.length
  let newPos := group.foldl (fun pos intsc =>
    match intsc.toPositionIndex b.size with
    | some stone => pos.set stone State.EMPTY
    | none => pos) b.position
  match color with
  | Color.WHITE => { b with position := newPos, whiteCaptures := b.whiteCaptures + stones }
  | Color.BLACK => { b with position := newPos, blackCaptures := b.blackCaptures + stones }

/-- Loop body of `Board::diamond` (`board.rs` lines 610-636), iterating the
four direction offsets with the source's early returns. -/
def diamondLoop (b : Board) (positionIndex : Nat) :
    List Int → Option Color → Option Color
  | [], acc => acc
  | dir :: rest, acc =>
    match addSignedToUnsigned positionIndex dir with
    | none => diamondLoop b positionIndex rest acc
    | some s =>
      match b.stateAt s with
      | State.EMPTY => none
      | State.OCCUPIED c =>
        match acc with
        | some curColor =>
          if curColor ≠ c then none else diamondLoop b positionIndex rest acc
        | none => diamondLoop b positionIndex rest (some c)
      | State.OFFBOARD => diamondLoop b positionIndex rest acc

/-- `Board::diamond` (`board.rs` lines 610-636): the uniform color surrounding
the given intersection on all four sides if one exists (offboard directions
are compatible with any color), else `none`. -/
def Board.diamond (b : Board) (intsc : Intersection) : Option Color :=
  match intsc.toPositionIndex b.size with
  | none => none
  | some positionIndex =>
    let n : Int := b.size.toNat
    diamondLoop b positionIndex [1, -1, n + 2, -n - 2] none

/-- One iteration of the capture loop inside `Board::play_intersection`
(`board.rs` lines 676-698): examine the opposing group rooted at the neighbor
in direction `dir` of the placed stone; if it has no liberties, possibly
update the pending ko point (single-stone capture whose placed stone sits in
an opposite-colored diamond) and capture the group. -/
def captureStep (placedIntsc : Intersection) (positionIndex : Nat) (color : Color)
    (acc : Board × Option Intersection) (dir : Int) : Board × Option Intersection :=
  let cur := acc.1
  let newKo := acc.2
  match addSignedToUnsigned positionIndex dir with
  | none => (cur, newKo)
  | some surroundingIdx =>
    let gl := cur.count surroundingIdx color.opposite
    if gl.2.length = 0 then
      let newKo2 :=
        if gl.1.length = 1 then
          match Intersection.fromPositionIndex surroundingIdx cur.size with
          | some surroundingIntsc =>
            match cur.diamond placedIntsc with
            | some surroundingColor =>
              if surroundingColor ≠ color then some surroundingIntsc else newKo
            | none => newKo
          | none => newKo
        else newKo
      (cur.captureGroup gl.1 color, newKo2)
    else (cur, newKo)

/-- The full capture loop of `Board::play_intersection` (`board.rs` lines
676-698): fold `captureStep` over the four direction offsets, starting from
the board with the stone already placed and no pending ko. -/
def captureDirs (b : Board) (positionIndex : Nat) (placedIntsc : Intersection)
    (color : Color) : Board × Option Intersection :=
  let n : Int := b.size.toNat
  [1, -1, n + 2, -n - 2].foldl (captureStep placedIntsc positionIndex color) (b, none)

/-- `Board::play_intersection` (`board.rs` lines 657-715): attempt to place a
stone of `color` at `intsc`.  Returns the success flag together with the
updated (or, on failure, unchanged / rolled-back) board. -/
def Board.playIntersection (b : Board) (intsc : Intersection) (color : Color) :
    Bool × Board :=
  if b.ko = some intsc then (false, b)
  else
    match intsc.toPositionIndex b.size with
    | none => (false, b)
    | some positionIndex =>
      if b.stateAt positionIndex ≠ State.EMPTY then (false, b)
      else
        let b1 : Board := { b with position := b.position.set positionIndex (State.OCCUPIED color) }
        let step := captureDirs b1 positionIndex intsc color
        let b2 := step.1
        let playedLiberties := (b2.count positionIndex color).2
        if playedLiberties.length = 0 then
          (false, { b2 with position := b2.position.set positionIndex State.EMPTY })
        else
          (true, { b2 with ko := step.2, side := color.opposite,
                           lastMove := Move.MOVE intsc color })

/-- `Board::play` (`board.rs` lines 640-653): dispatch on the move kind and
advance the move counter exactly when the move was played. -/
def Board.play (b : Board) (mov : Move) : Bool × Board :=
  match mov with
  | Move.PASS => (true, { b with moveNumber := b.moveNumber + 1 })
  | Move.MOVE intsc color =>
    let r := b.playIntersection intsc color
    if r.1 then (true, { r.2 with moveNumber := r.2.moveNumber + 1 })
    else (false, r.2)
  | Move.RESIGN => (false, b)

/-- The three-state option of `board.rs` (`enum Tristate`), used by the
scoring pass. -/
inductive Tristate where
  | Unknown
  | Yes (c : Color)
  | No
  deriving DecidableEq, Repr

/-- `Tristate::is_yes` (`board.rs`). -/
def Tristate.isYes : Tristate → Bool
  | Tristate.Yes _ => true
  | _ => false

/-- `Board::neighboring_intersections` (`board.rs` lines 791-806): the valid
intersections adjacent to the given one (offboard neighbors are dropped by
`from_position_index` returning `None`).  The source `unwrap`s
`add_signed_to_unsigned`, which cannot fail for a valid intersection's index;
the model filters the unreachable `none` out. -/
def Board.neighboringIntersections (b : Board) (intsc : Intersection) :
    List Intersection :=
  match intsc.toPositionIndex b.size with
  | none => []
  | some index =>
    let n : Int := b.size.toNat
    [1, -1, n + 2, -n - 2].filterMap fun dir =>
      match addSignedToUnsigned index dir with
      | some j => Intersection.fromPositionIndex j b.size
      | none => none

/-- Worklist loop of `Board::tromp_taylor_count` (`board.rs` lines 748-789):
fill from a root intersection.  Occupied cells update the reached color (two
distinct colors force `No`); empty cells enqueue their neighbors; every
processed cell is added to the seen set.  The source's `VecDeque` enqueues at
the back (breadth first); the model enqueues at the front (depth-first
order), which leaves both observable outputs — the set of visited cells and
the final reached color, a commutative accumulation over the visited occupied
cells — unchanged while keeping reduction shallow.  `fuel` strictly exceeds
the total number of worklist pops that can occur (each unseen pop enqueues at
most four cells, and only finitely many cells exist), so the zero branch is
unreachable from `Board.trompTaylorCount`.  The source `unwrap`s
`to_position_index` on worklist members, which always succeeds because only
valid intersections are enqueued; the model skips the unreachable `none` case
after marking the cell seen. -/
def trompTaylorLoop (b : Board) :
    Nat → List Intersection → List Intersection → Tristate →
    List Intersection × Tristate
  | 0, _, seen, reaches => (seen, reaches)
  | Nat.succ fuel, workList, seen, reaches =>
    match workList with
    | [] => (seen, reaches)
    | intsc :: rest =>
      if intsc ∈ seen then trompTaylorLoop b fuel rest seen reaches
      else
        match intsc.toPositionIndex b.size with
        | none => trompTaylorLoop b fuel rest (intsc :: seen) reaches
        | some idx =>
          match b.stateAt idx with
          | State.OFFBOARD => trompTaylorLoop b fuel rest (intsc :: seen) reaches
          | State.OCCUPIED c =>
            let reaches2 :=
              match reaches with
              | Tristate.Unknown => Tristate.Yes c
              | Tristate.Yes reachedColor =>
                if c = reachedColor then Tristate.Yes c else Tristate.No
              | Tristate.No => Tristate.No
            trompTaylorLoop b fuel rest (intsc :: seen) reaches2
          | State.EMPTY =>
            trompTaylorLoop b fuel (b.neighboringIntersections intsc ++ rest)
              (intsc :: seen) reaches

/-- `Board::tromp_taylor_count` (`board.rs` lines 748-789): the set of
intersections visited by the fill rooted at `root` (empty cells of the region
plus the occupied cells bordering it) together with the color the region
reaches. -/
def Board.trompTaylorCount (b : Board) (root : Intersection) :
    List Intersection × Tristate :=
  trompTaylorLoop b (4 * b.position.length + 5) [root] [] Tristate.Unknown

/-- The accumulation pass of `Board::estimate_score` (`board.rs` lines
724-746): iterate all intersections in row-major order, flood-filling each
unseen one and crediting the visited intersection count to the reached color.
Returns the final `(reaches_black, reaches_white)` pair (the source keeps the
same two `i16` accumulators, which cannot overflow on any supported board).
The source `unwrap`s `ColumnIdentifier::from_u16 col` for `col < size`, which
always succeeds. -/
def Board.estimateCounts (b : Board) : Int × Int :=
  let n := b.size.toNat
  let seeds := (List.range n).flatMap fun row => (List.range n).map fun col => (row, col)
  let acc := seeds.foldl (fun (acc : Int × Int × List Intersection) rc =>
    match ColumnIdentifier.fromNat rc.2 with
    | none => acc
    | some colId =>
      let intsc : Intersection := { column := colId, row := rc.1 + 1 }
      if intsc ∈ acc.2.2 then acc
      else
        let res := b.trompTaylorCount intsc
        let counts : Int × Int :=
          match res.2 with
          | Tristate.Yes Color.BLACK => (acc.1 + res.1.length, acc.2.1)
          | Tristate.Yes Color.WHITE => (acc.1, acc.2.1 + res.1.length)
          | _ => (acc.1, acc.2.1)
        (counts.1, counts.2, res.1 ++ acc.2.2)) (0, 0, [])
  (acc.1, acc.2.1)

/-- `Board::estimate_score` (`board.rs` lines 724-746): the area estimate
`(reaches_black - reaches_white) as f64 - komi` (exact in `ℚ` for the integer
and half-integer values involved). -/
def Board.estimateScore (b : Board) : ℚ :=
  (((b.estimateCounts.1 - b.estimateCounts.2 : Int)) : ℚ) - b.komi

/-! ## Monte-Carlo tree search (`src/engine.rs`)

The arena (`thunderdome::Arena<MCTSNode>`) is modelled as a list of nodes
indexed by position; `Index` becomes `Nat`, insertion appends at the end and
`contains` is a bounds check.  Scores (`f64`) become `ℚ` as above. -/

/-- `RESIGNATION_THRESHOLD` (`engine.rs` line 7). -/
def RESIGNATION_THRESHOLD : ℚ := 60

/-- `struct MCTSNode` (`engine.rs` lines 20-29). -/
structure MCTSNode where
  state : Board
  playedLastMove : Color
  parent : Option Nat
  children : List Nat
  totalVisits : Nat
  winningVisits : Nat
  score : ℚ
  simulated : Bool
  deriving DecidableEq

/-- `MCTSNode::new` (`engine.rs` lines 37-48): a fresh node with the given
state and mover, default-initialized search fields.  Note that `parent` is
initialized to `None`. -/
def MCTSNode.new (state : Board) (playedLastMove : Color) : MCTSNode :=
  { state := state
    playedLastMove := playedLastMove
    parent := none
    children := []
    totalVisits := 0
    winningVisits := 0
    score := 0
    simulated := false }

/-- `struct MCTSTree` (`engine.rs` lines 14-17). -/
structure MCTSTree where
  rootIndex : Nat
  arena : List MCTSNode
  deriving DecidableEq

/-- `MCTSTree::new` (`engine.rs` lines 61-66): a tree whose root holds a deep
copy of the initial board and records the color opposite to the player to
generate for as having played the last move. -/
def MCTSTree.new (initialState : Board) (playerToGenerate : Color) : MCTSTree :=
  { rootIndex := 0
    arena := [MCTSNode.new initialState.deepcopy playerToGenerate.opposite] }

/-- `MCTSTree::root` (`engine.rs` lines 105-107).  The source `unwrap`s the
arena lookup; the root always exists by construction, making the default
unreachable. -/
def MCTSTree.root (t : MCTSTree) : MCTSNode :=
  t.arena.getD t.rootIndex (MCTSNode.new (Board.new BoardSize.NINETEEN) Color.BLACK)

/-- `MCTSTree::node` (`engine.rs` lines 72-81): return the index of an
existing node with the same `(state, played_last_move)` (the custom
`PartialEq` of `MCTSNode`, `engine.rs` lines 51-57, compares only those two
fields), else insert a new node and return its index.  Returns the possibly
extended tree together with the index. -/
def MCTSTree.node (t : MCTSTree) (state : Board) (playedLastMove : Color) :
    MCTSTree × Nat :=
  match t.arena.findIdx? (fun nd =>
      decide (nd.state = state ∧ nd.playedLastMove = playedLastMove)) with
  | some index => (t, index)
  | none => ({ t with arena := t.arena ++ [MCTSNode.new state playedLastMove] },
             t.arena.length)

/-- `MCTSTree::set_child` (`engine.rs` lines 109-114): if both indices exist,
push the child index onto the parent's child list.  Note that the child's
`parent` field is not modified. -/
def MCTSTree.setChild (t : MCTSTree) (parentIndex childIndex : Nat) : MCTSTree :=
  if parentIndex < t.arena.length ∧ childIndex < t.arena.length then
    match t.arena.get? parentIndex with
    | some parent =>
      { t with arena :=
          t.arena.set parentIndex { parent with children := parent.children ++ [childIndex] } }
    | none => t
  else t

/-- Loop body of `MCTSTree::backpropagation` (`engine.rs` lines 213-224):
follow the `parent` chain from the given index, incrementing each visited
node's total-visit count and its win count when the score favors the color it
recorded as `played_last_move`.  `fuel` exceeds the length of any acyclic
parent chain in the arena (in the source every `parent` is in fact `None`, so
the loop body runs exactly once); the `none` arena lookup would panic in the
source and is unreachable for indices stored in the arena. -/
def backpropLoop (score : ℚ) :
    Nat → List MCTSNode → Option Nat → List MCTSNode
  | 0, arena, _ => arena
  | _, arena, none => arena
  | Nat.succ fuel, arena, some idx =>
    match arena.get? idx with
    | none => arena
    | some node =>
      let node1 :=
        if score > 0 ∧ node.playedLastMove = Color.BLACK then
          { node with winningVisits := node.winningVisits + 1 }
        else if score < 0 ∧ node.playedLastMove = Color.WHITE then
          { node with winningVisits := node.winningVisits + 1 }
        else node
      let node2 := { node1 with totalVisits := node1.totalVisits + 1 }
      backpropLoop score fuel (arena.set idx node2) node.parent

/-- `MCTSTree::backpropagation` (`engine.rs` lines 208-225).  The source
panics when the leaf index is not in the arena; the model leaves the tree
unchanged in that unreachable case. -/
def MCTSTree.backpropagation (t : MCTSTree) (leafIndex : Nat) (score : ℚ) :
    MCTSTree :=
  if leafIndex < t.arena.length then
    { t with arena := backpropLoop score (t.arena.length + 1) t.arena (some leafIndex) }
  else t

/-- `MCTSNode::should_resign` (`engine.rs` lines 353-365): after move number
100, resign for the color to move (the opposite of `played_last_move`) when
the estimated score is beyond the threshold against it. -/
def MCTSNode.shouldResign (node : MCTSNode) (resignThreshold : ℚ) : Bool :=
  if node.state.moveNumber > 100 then
    let toPlay := node.playedLastMove.opposite
    let score := node.state.estimateScore
    match toPlay with
    | Color.BLACK => decide (score < -resignThreshold)
    | Color.WHITE => decide (score > resignThreshold)
  else false

/-- `generate_move` (`engine.rs` lines 373-399) up to its search loop: build
the tree rooted at a deep copy of the caller's board, and return `RESIGN`
immediately when the root passes the resignation check, before any search
iteration runs.  The per-iteration search (selection by floating-point UCT,
expansion, randomized simulation, backpropagation) and the final
most-visited-child extraction are abstracted as the `searchRest` parameter;
the claims under verification concern only the pre-loop resignation path,
which is taken for every possible behaviour of the loop and of the RNG. -/
def generateMoveWith (searchRest : MCTSTree → Nat → Move) (position : Board)
    (color : Color) (iterations : Nat) : Move :=
  let tree := MCTSTree.new position color
  if tree.root.shouldResign RESIGNATION_THRESHOLD then Move.RESIGN
  else searchRest tree iterations

/-! ## The `update`-message layer of the newer draft (`src/update.rs`,
`src/board.rs`, `src/groups.rs`)

This draft has its own board type (`src/board.rs`, `struct Board`) whose
`Color`/`State`/`BoardSize` enums are isomorphic to the ones above and are
therefore reused.  Its names are prefixed with `U` to keep the two drafts
apart. -/

/-- `init_board` (`src/board.rs` lines 172-187). -/
def initBoard (size : BoardSize) : List State :=
  let rowLen := size.toNat + 2
  (List.range (rowLen * rowLen)).map fun i =>
    if i / rowLen = 0 ∨ i / rowLen = rowLen - 1 then State.OFFBOARD
    else if i % rowLen = rowLen - 1 ∨ i % rowLen = 0 then State.OFFBOARD
    else State.EMPTY

/-- `struct Board` of the newer draft (`src/board.rs` lines 43-51). -/
structure UBoard where
  size : BoardSize
  board : List State
  ko : Option Nat
  blackCaptures : Nat
  whiteCaptures : Nat
  playerTurn : Color
  moveNumber : Nat
  deriving DecidableEq, Repr

/-- `Board::new` of the newer draft (`src/board.rs` lines 76-86). -/
def UBoard.new : UBoard :=
  { size := BoardSize.NINETEEN
    board := initBoard BoardSize.NINETEEN
    ko := none
    blackCaptures := 0
    whiteCaptures := 0
    playerTurn := Color.BLACK
    moveNumber := 0 }

/-- `struct Group` (`src/groups.rs` lines 7-14), with position-index lists. -/
structure UGroup where
  stones : List Nat
  liberties : List Nat
  color : Color

/-- `groups::neighbors` (`src/groups.rs` lines 17-27).  The Rust `usize`
subtractions cannot underflow on the in-board indices this is reached with. -/
def uNeighbors (index : Nat) (board : List State) (size : BoardSize) : List Nat :=
  match board.getD index State.OFFBOARD with
  | State.OFFBOARD => []
  | _ => [index + 1, index - 1, index + size.toNat + 2, index - (size.toNat + 2)]

/-- Worklist loop of `groups::find_group` (`src/groups.rs` lines 30-76).
Each index enters the worklist at most once (candidates are filtered against
the seen set, which is immediately extended with all four neighbors), so
`fuel` strictly exceeding the total enqueue capacity makes the zero branch
unreachable from `findGroup`. -/
def findGroupLoop (color : Color) (board : List State) (size : BoardSize) :
    Nat → List Nat → List Nat → List Nat → List Nat → UGroup
  | 0, _, _, group, liberties => { stones := group, liberties := liberties, color := color }
  | Nat.succ fuel, workList, seen, group, liberties =>
    match workList with
    | [] => { stones := group, liberties := liberties, color := color }
    | curIndex :: rest =>
      match board.getD curIndex State.OFFBOARD with
      | State.EMPTY =>
        findGroupLoop color board size fuel rest seen group (liberties ++ [curIndex])
      | State.OCCUPIED c =>
        if c = color then
          let ns := uNeighbors curIndex board size
          findGroupLoop color board size fuel
            (rest ++ ns.filter (fun n => n ∉ seen)) (seen ++ ns)
            (group ++ [curIndex]) liberties
        else
          findGroupLoop color board size fuel rest seen group liberties
      | State.OFFBOARD =>
        findGroupLoop color board size fuel rest seen group liberties

/-- `groups::find_group` (`src/groups.rs` lines 30-76). -/
def findGroup (startIndex : Nat) (color : Color) (board : List State)
    (size : BoardSize) : UGroup :=
  findGroupLoop color board size (4 * board.length + 5) [startIndex] [startIndex] [] []

/-- `Board::capture_causes_ko` of the newer draft (`src/board.rs` lines
119-128): a captured group of exactly one stone whose neighbors are all
occupied by the capturing color or offboard. -/
def UBoard.captureCausesKo (b : UBoard) (capturedGroup : UGroup) : Bool :=
  if capturedGroup.stones.length = 1 then
    (uNeighbors (capturedGroup.stones.headD 0) b.board b.size).all fun index =>
      decide (b.board.getD index State.OFFBOARD =
                State.OCCUPIED capturedGroup.color.opposite ∨
              b.board.getD index State.OFFBOARD = State.OFFBOARD)
  else false

/-- `Board::attempt_captures` of the newer draft (`src/board.rs` lines
88-117): for each neighbor of the played stone, capture the opposing group
there if it has no liberties, collecting potential ko points
(`group.stones[0]` is only read when the captured group has exactly one
stone); the ko point is set exactly when one potential ko was collected. -/
def UBoard.attemptCaptures (b : UBoard) (playedIndex : Nat) (playedColor : Color) :
    UBoard :=
  let ns := uNeighbors playedIndex b.board b.size
  let res := ns.foldl (fun (acc : UBoard × List Nat) startIndex =>
    let cur := acc.1
    let group := findGroup startIndex playedColor.opposite cur.board cur.size
    if group.liberties.length = 0 then
      let potentialKos :=
        if cur.captureCausesKo group then acc.2 ++ [group.stones.headD 0] else acc.2
      let newBoard := group.stones.foldl (fun bd i => bd.set i State.EMPTY) cur.board
      let cur2 :=
        match playedColor with
        | Color.WHITE =>
          { cur with board := newBoard, whiteCaptures := cur.whiteCaptures + group.stones.length }
        | Color.BLACK =>
          { cur with board := newBoard, blackCaptures := cur.blackCaptures + group.stones.length }
      (cur2, potentialKos)
    else acc) (b, [])
  { res.1 with ko := if res.2.length = 1 then some (res.2.headD 0) else none }

/-- `struct Position` (`src/update.rs` lines 99-103). -/
structure UPos where
  row : Nat
  col : Nat
  deriving DecidableEq, Repr

/-- `Position::to_board_index` (`src/update.rs` lines 107-124). -/
def UPos.toBoardIndex (p : UPos) (boardsize : BoardSize) : Option Nat :=
  let n := boardsize.toNat
  if p.col + p.row * n ≥ n * n then none
  else
    let vectorRowLength := n + 2
    let rowIndex := (vectorRowLength - p.row - 2) * vectorRowLength
    some (p.col + rowIndex + 1)

/-- `enum Message` (`src/update.rs` lines 7-22). -/
inductive UMessage where
  | None
  | Play (c : Color) (p : UPos)
  | PlaceStone (c : Color) (p : UPos)
  | Pass
  | Resign
  | Clear
  | SetSize (s : BoardSize)

/-- The `Message::PlaceStone` branch of `update` (`src/update.rs` lines
61-76), which the `Play` branch reaches through a recursive `update` call. -/
def updatePlaceStone (board : UBoard) (color : Color) (pos : UPos) :
    UBoard × Except String UMessage :=
  match pos.toBoardIndex board.size with
  | some index =>
    match board.board.getD index State.OFFBOARD with
    | State.EMPTY =>
      ({ board with board := board.board.set index (State.OCCUPIED color) },
       Except.ok UMessage.None)
    | State.OCCUPIED _ =>
      (board, Except.error "Cannot place stone at occupied intersection")
    | State.OFFBOARD => (board, Except.error "Should be impossible how")
  | none =>
    (board, Except.error "Intersection is out of bounds for current boardsize")

/-- The `Message::Clear` branch of `update` (`src/update.rs` lines 84-90),
which the `SetSize` branch reaches through a recursive `update` call. -/
def updateClear (board : UBoard) : UBoard × Except String UMessage :=
  ({ board with board := initBoard board.size, ko := none,
                blackCaptures := 0, whiteCaptures := 0 },
   Except.ok UMessage.None)

/-- `update` (`src/update.rs` lines 28-96): dispatch a message against the
newer draft's board.  The `Play` branch first rejects out-of-turn colors,
then places the stone (via the recursive `PlaceStone` call), checks ko,
resolves captures and checks suicide.  `Message::Resign` is `todo!()` in the
source (a panic); the model returns an error in that unreachable case.  The
source `unwrap`s `to_board_index` after a successful `PlaceStone`, which
guarantees `some`; the model's `getD 0` default is unreachable. -/
def update (board : UBoard) (msg : UMessage) : UBoard × Except String UMessage :=
  match msg with
  | UMessage.None => (board, Except.ok UMessage.None)
  | UMessage.Play color pos =>
    if board.playerTurn = color then
      let r := updatePlaceStone board color pos
      match r.2 with
      | Except.error e => (r.1, Except.error e)
      | Except.ok _ =>
        let b1 := r.1
        let index := (pos.toBoardIndex b1.size).getD 0
        if b1.ko.all (fun ko => ko ≠ index) then
          let b2 := b1.attemptCaptures index color
          if (findGroup index color b2.board b2.size).liberties.length ≠ 0 then
            ({ b2 with playerTurn := b2.playerTurn.opposite, ko := none,
                       moveNumber := b2.moveNumber + 1 },
             Except.ok UMessage.None)
          else
            ({ b2 with board := b2.board.set index State.EMPTY },
             Except.error "Placing a stone at this intersection is suicidal")
        else
          (b1, Except.error "Placing a stone at this intersection violates the rule of ko")
    else
      (board, Except.error "Playing this move violates the turn order")
  | UMessage.PlaceStone color pos => updatePlaceStone board color pos
  | UMessage.Pass =>
    ({ board with playerTurn := board.playerTurn.opposite,
                  moveNumber := board.moveNumber + 1, ko := none },
     Except.ok UMessage.None)
  | UMessage.Resign => (board, Except.error "unreachable: todo in the source")
  | UMessage.Clear => updateClear board
  | UMessage.SetSize size => updateClear { board with size := size }

/-! ## Concrete test positions and claim-side definitions -/

/-- Folds a list of moves over `Board.play`, keeping the resulting board. -/
def boardAfter (b : Board) (moves : List Move) : Board :=
  moves.foldl (fun bd m => (bd.play m).2) b

/-- The position of `test_play_intersection` (`src/tests.rs` lines 405-417)
just before White takes the ko at F4: Black E4, F3, G4, F5; White E5, F6, G5
on a 9×9 board. -/
def koPreBoard : Board :=
  boardAfter (Board.new BoardSize.NINE)
    [Move.MOVE ⟨ColumnIdentifier.E, 4⟩ Color.BLACK,
     Move.MOVE ⟨ColumnIdentifier.F, 3⟩ Color.BLACK,
     Move.MOVE ⟨ColumnIdentifier.G, 4⟩ Color.BLACK,
     Move.MOVE ⟨ColumnIdentifier.F, 5⟩ Color.BLACK,
     Move.MOVE ⟨ColumnIdentifier.E, 5⟩ Color.WHITE,
     Move.MOVE ⟨ColumnIdentifier.F, 6⟩ Color.WHITE,
     Move.MOVE ⟨ColumnIdentifier.G, 5⟩ Color.WHITE]

/-- The engineered resignation test position of `test_should_resign`
(`engine.rs` lines 401-433): a 9×9 board with a Black wall enclosing the
upper-left corner and White stones in the lower right, move number forced to
101. -/
def resignTestBoard : Board :=
  { boardAfter (Board.new BoardSize.NINE)
      [Move.MOVE ⟨ColumnIdentifier.C, 7⟩ Color.BLACK,
       Move.MOVE ⟨ColumnIdentifier.G, 3⟩ Color.WHITE,
       Move.MOVE ⟨ColumnIdentifier.D, 7⟩ Color.BLACK,
       Move.MOVE ⟨ColumnIdentifier.G, 2⟩ Color.WHITE,
       Move.MOVE ⟨ColumnIdentifier.D, 8⟩ Color.BLACK,
       Move.MOVE ⟨ColumnIdentifier.G, 1⟩ Color.WHITE,
       Move.MOVE ⟨ColumnIdentifier.D, 9⟩ Color.BLACK,
       Move.MOVE ⟨ColumnIdentifier.H, 3⟩ Color.WHITE,
       Move.MOVE ⟨ColumnIdentifier.C, 6⟩ Color.BLACK,
       Move.MOVE ⟨ColumnIdentifier.J, 3⟩ Color.WHITE,
       Move.MOVE ⟨ColumnIdentifier.B, 6⟩ Color.BLACK,
       Move.MOVE ⟨ColumnIdentifier.J, 4⟩ Color.WHITE,
       Move.MOVE ⟨ColumnIdentifier.A, 6⟩ Color.BLACK,
       Move.MOVE ⟨ColumnIdentifier.F, 1⟩ Color.WHITE] with
    moveNumber := 101 }

/-- A 9×9 board with a single Black stone in the corner: the smallest
position on which the per-point area formula of claim C5 diverges from
`estimate_score` (the stone is counted once as a fill seed and once inside
the adjacent empty region). -/
def loneStoneBoard : Board :=
  boardAfter (Board.new BoardSize.NINE) [Move.MOVE ⟨ColumnIdentifier.A, 1⟩ Color.BLACK]

/-- A 9×9 board past move 100 that is hopeless for Black (one White stone,
and the area estimate double-counts it together with the whole empty area):
`estimate_score = -88.5`, far beyond the resignation threshold of 60. -/
def lopsidedBoard : Board :=
  { boardAfter (Board.new BoardSize.NINE)
      [Move.MOVE ⟨ColumnIdentifier.E, 5⟩ Color.WHITE] with
    moveNumber := 101 }

/-- A one-move child position used to exercise the search-tree plumbing:
Black plays E5 on an empty 9×9 board. -/
def c6ChildBoard : Board :=
  ((Board.new BoardSize.NINE).play (Move.MOVE ⟨ColumnIdentifier.E, 5⟩ Color.BLACK)).2

/-- A two-node search tree built exactly the way `expansion` links children:
a root for Black to move, plus a child node created with `MCTSTree::node` and
linked with `MCTSTree::set_child`. -/
def c6Tree : MCTSTree :=
  let t0 := MCTSTree.new (Board.new BoardSize.NINE) Color.BLACK
  let tn := t0.node c6ChildBoard Color.BLACK
  tn.1.setChild t0.rootIndex tn.2

/-- The intersections captured by a move: points that held a stone of the
captured color before the move and are empty afterwards (claim-side notion
used to state claims C3). -/
def capturedPoints (pre post : Board) (moverColor : Color) : List Intersection :=
  (List.range pre.position.length).filterMap fun j =>
    if pre.stateAt j = State.OCCUPIED moverColor.opposite ∧
       post.stateAt j = State.EMPTY then
      Intersection.fromPositionIndex j pre.size
    else none

/-- Claim C3 as stated: for every successful Place move, if the move captured
exactly one stone and the four neighbors of the *captured point* form a
uniform single-color diamond of the color opposite to the mover, the ko point
equals the captured point; in every other successful move the ko point is
cleared to absent.  (The diamond condition is evaluated, as the code's own
`diamond` check is, on the position with the new stone present.) -/
def ClaimC3 : Prop :=
  ∀ (b : Board) (i : Intersection) (c : Color),
    (b.play (Move.MOVE i c)).1 = true →
    (∀ p, capturedPoints b (b.play (Move.MOVE i c)).2 c = [p] →
       ((b.play (Move.MOVE i c)).2.diamond p = some c.opposite →
          (b.play (Move.MOVE i c)).2.ko = some p) ∧
       ((b.play (Move.MOVE i c)).2.diamond p ≠ some c.opposite →
          (b.play (Move.MOVE i c)).2.ko = none)) ∧
    ((¬ ∃ p, capturedPoints b (b.play (Move.MOVE i c)).2 c = [p]) →
       (b.play (Move.MOVE i c)).2.ko = none)

/-- Region collector for the claim-side scoring formula of C5: the connected
set of empty cells containing the seed, as flat indices. -/
def claimRegionLoop (b : Board) : Nat → List Nat → List Nat → List Nat
  | 0, _, acc => acc
  | Nat.succ fuel, workList, acc =>
    match workList with
    | [] => acc
    | j :: rest =>
      if j ∈ acc then claimRegionLoop b fuel rest acc
      else
        match b.stateAt j with
        | State.EMPTY =>
          claimRegionLoop b fuel
            ((j + 1) :: (j - 1) :: (j + (b.size.toNat + 2)) :: (j - (b.size.toNat + 2)) :: rest)
            (j :: acc)
        | _ => claimRegionLoop b fuel rest acc

/-- The empty region containing flat index `j` (claim-side notion). -/
def claimRegionOf (b : Board) (j : Nat) : List Nat :=
  claimRegionLoop b (4 * b.position.length + 5) [j] []

/-- The partition of the board's empty points into connected regions
(claim-side notion: "Partition all Empty regions via flood fill"). -/
def claimRegions (b : Board) : List (List Nat) :=
  (List.range b.position.length).foldl (fun (acc : List (List Nat)) j =>
    if b.stateAt j = State.EMPTY ∧ ¬ acc.any (fun r => decide (j ∈ r)) then
      acc ++ [claimRegionOf b j]
    else acc) []

/-- Whether an empty region reaches (borders a stone of) color `c`
(claim-side notion). -/
def claimRegionReaches (b : Board) (r : List Nat) (c : Color) : Bool :=
  r.any fun x =>
    [x + 1, x - 1, x + (b.size.toNat + 2), x - (b.size.toNat + 2)].any fun y =>
      decide (b.stateAt y = State.OCCUPIED c)

/-- The claim-side area count for one color: occupied points of that color
plus empty points whose region reaches only that color (every empty point
lies in exactly one region of the partition, so the latter is the sum of the
sizes of the regions reaching only `c`; a region bordering both colors — or
no stone at all — counts for neither). -/
def claimC5CountFor (b : Board) (c : Color) : Nat :=
  (List.range b.position.length).countP (fun j => decide (b.stateAt j = State.OCCUPIED c)) +
  (claimRegions b).foldl (fun n r =>
    if claimRegionReaches b r c ∧ ¬ claimRegionReaches b r c.opposite then n + r.length
    else n) 0

/-- The scoring formula claim C5 asserts for `estimate_score`: (Black-occupied
points + Empty points reaching only Black) − (White-occupied points + Empty
points reaching only White) − komi. -/
def claimC5Score (b : Board) : ℚ :=
  ((claimC5CountFor b Color.BLACK : Int) - (claimC5CountFor b Color.WHITE : Int) : Int) - b.komi

/-- Claim C5's general formula as stated. -/
def ClaimC5 : Prop := ∀ b : Board, b.estimateScore = claimC5Score b

/-- Claim C9's `to_index` half as stated: absent for row or column ≥ size, or
row 0. -/
def ClaimC9 : Prop :=
  ∀ (size : BoardSize) (i : Intersection),
    (size.toNat ≤ i.column.toNat ∨ size.toNat ≤ i.row ∨ i.row = 0) →
    i.toPositionIndex size = none

/-- The board with the mover's stone already placed at the given flat index
(the state from which `play_intersection` runs its capture loop). -/
def placedBoard (b : Board) (idx : Nat) (color : Color) : Board :=
  { b with position := b.position.set idx (State.OCCUPIED color) }

/-- Decidable no-capture test for one direction of the capture loop: the
opposing neighbor group in that direction either does not exist or still has
a liberty, so `capture_group` is not invoked. -/
def dirNoCaptureB (b : Board) (idx : Nat) (c : Color) (d : Int) : Bool :=
  match addSignedToUnsigned idx d with
  | none => true
  | some s => decide ((b.count s c.opposite).1 = []) || decide ((b.count s c.opposite).2 ≠ [])

/-! ## Helper lemmas -/

theorem defaultKomi_eq : defaultKomi = 13 / 2 := by
  rw [defaultKomi, Rat.mk'_eq_divInt]; norm_num [Rat.divInt_eq_div]

theorem Board.estimateScore_def (b : Board) :
    b.estimateScore = ((b.estimateCounts.1 - b.estimateCounts.2 : Int) : ℚ) - b.komi := rfl

theorem list_set_self {α : Type} (l : List α) (i : Nat) (a : α)
    (h : l.get? i = some a) : l.set i a = l := by
  induction l generalizing i with
  | nil => simp at h
  | cons x xs ih =>
    cases i with
    | zero => simp_all
    | succ n =>
      simp only [List.get?_cons_succ] at h
      simp [ih n h]

/-- The success path of `Board::play_intersection`: when the ko, bounds and
occupancy checks pass and the post-capture liberty count of the placed
stone's group is nonzero, the move commits with the captured board, the
pending ko, the flipped side and the recorded last move. -/
theorem playIntersection_success_eq (b : Board) (i : Intersection) (c : Color) (idx : Nat)
    (hko : b.ko ≠ some i)
    (hidx : i.toPositionIndex b.size = some idx)
    (hempty : b.stateAt idx = State.EMPTY)
    (hfreed : ((captureDirs { b with position := b.position.set idx (State.OCCUPIED c) } idx i c).1.count idx c).2.length ≠ 0) :
    b.playIntersection i c =
      (true,
       { (captureDirs { b with position := b.position.set idx (State.OCCUPIED c) } idx i c).1 with
          ko := (captureDirs { b with position := b.position.set idx (State.OCCUPIED c) } idx i c).2,
          side := c.opposite, lastMove := Move.MOVE i c }) := by
  unfold Board.playIntersection
  rw [if_neg hko, hidx]
  dsimp only
  rw [if_neg (by simp [hempty]), if_neg hfreed]

theorem foldl_invariant {α β : Type} (P : β → Prop) (f : β → α → β) (l : List α)
    (init : β) (h0 : P init) (hstep : ∀ x a, P x → P (f x a)) : P (l.foldl f init) := by
  induction l generalizing init with
  | nil => exact h0
  | cons a rest ih => exact ih (f init a) (hstep init a h0)

theorem stateAt_new_not_occupied (sz : BoardSize) (j : Nat) (c : Color) :
    (Board.new sz).stateAt j ≠ State.OCCUPIED c := by
  show (emptyBoard sz.toNat).getD j State.OFFBOARD ≠ State.OCCUPIED c
  unfold emptyBoard
  rcases lt_or_ge j ((sz.toNat + 2) * (sz.toNat + 2)) with h | h
  · rw [List.getD_eq_getElem?_getD, List.getElem?_map, List.getElem?_range h]
    dsimp only [Option.map_some', Option.getD_some]
    split <;> simp
  · rw [List.getD_eq_getElem?_getD, List.getElem?_eq_none (by simpa using h)]
    simp

theorem tromp_loop_no_stones (b : Board)
    (hb : ∀ j (c : Color), b.stateAt j ≠ State.OCCUPIED c) :
    ∀ (fuel : Nat) (wl seen : List Intersection),
      (trompTaylorLoop b fuel wl seen Tristate.Unknown).2 = Tristate.Unknown := by
  intro fuel
  induction fuel with
  | zero => intro wl seen; rfl
  | succ n ih =>
    intro wl seen
    rw [trompTaylorLoop.eq_def]
    cases wl with
    | nil => rfl
    | cons x rest =>
      dsimp only
      split
      · exact ih rest seen
      · cases hx : x.toPositionIndex b.size with
        | none => exact ih rest (x :: seen)
        | some idx =>
          dsimp only
          cases hstate : b.stateAt idx with
          | OCCUPIED c => exact absurd hstate (hb idx c)
          | EMPTY => exact ih _ (x :: seen)
          | OFFBOARD => exact ih rest (x :: seen)

theorem estimateCounts_new (sz : BoardSize) : (Board.new sz).estimateCounts = (0, 0) := by
  unfold Board.estimateCounts
  dsimp only
  have key := foldl_invariant (fun acc : Int × Int × List Intersection => acc.1 = 0 ∧ acc.2.1 = 0)
    (fun acc rc =>
      match ColumnIdentifier.fromNat rc.2 with
      | none => acc
      | some colId =>
        let intsc : Intersection := { column := colId, row := rc.1 + 1 }
        if intsc ∈ acc.2.2 then acc
        else
          let res := (Board.new sz).trompTaylorCount intsc
          let counts : Int × Int :=
            match res.2 with
            | Tristate.Yes Color.BLACK => (acc.1 + res.1.length, acc.2.1)
            | Tristate.Yes Color.WHITE => (acc.1, acc.2.1 + res.1.length)
            | _ => (acc.1, acc.2.1)
          (counts.1, counts.2, res.1 ++ acc.2.2))
    ((List.range (Board.new sz).size.toNat).flatMap fun row =>
      (List.range (Board.new sz).size.toNat).map fun col => (row, col))
    (0, 0, []) ⟨rfl, rfl⟩ ?_
  · rw [key.1, key.2]
  · intro x a hx
    dsimp only
    cases hcol : ColumnIdentifier.fromNat a.2 with
    | none => exact hx
    | some colId =>
      dsimp only
      split
      · exact hx
      · have hres : ((Board.new sz).trompTaylorCount ⟨colId, a.1 + 1⟩).2 = Tristate.Unknown :=
          tromp_loop_no_stones (Board.new sz) (fun j c => stateAt_new_not_occupied sz j c) _ _ _
        rw [hres]
        exact hx

theorem loneStone_counts : loneStoneBoard.estimateCounts = (82, 0) := by decide

theorem loneStone_claim_black : claimC5CountFor loneStoneBoard Color.BLACK = 81 := by decide

theorem loneStone_claim_white : claimC5CountFor loneStoneBoard Color.WHITE = 0 := by decide

theorem loneStone_komi : loneStoneBoard.komi = defaultKomi := by decide

theorem resignTestBoard_counts : resignTestBoard.estimateCounts = (13, 9) := by decide

theorem resignTestBoard_score : resignTestBoard.estimateScore = -(5/2 : ℚ) := by
  rw [Board.estimateScore_def, resignTestBoard_counts,
      show resignTestBoard.komi = defaultKomi from by decide, defaultKomi_eq]
  norm_num

theorem lopsided_counts : lopsidedBoard.estimateCounts = (0, 81) := by decide

theorem lopsided_score : lopsidedBoard.estimateScore = -(175/2 : ℚ) := by
  rw [Board.estimateScore_def, lopsided_counts,
      show lopsidedBoard.komi = defaultKomi from by decide, defaultKomi_eq]
  norm_num

/-- `MCTSNode::should_resign`, characterized against `estimate_score`: it
signals resignation exactly when the move number exceeds 100 and the
estimated score is against the color to move by more than the threshold. -/
theorem shouldResign_iff (node : MCTSNode) (thr : ℚ) :
    node.shouldResign thr = true ↔
      (100 < node.state.moveNumber ∧
        ((node.playedLastMove.opposite = Color.BLACK ∧ node.state.estimateScore < -thr) ∨
         (node.playedLastMove.opposite = Color.WHITE ∧ thr < node.state.estimateScore))) := by
  unfold MCTSNode.shouldResign
  split
  · rename_i h100
    cases hop : node.playedLastMove.opposite with
    | BLACK => simp [hop, h100]
    | WHITE => simp [hop, h100, gt_iff_lt]
  · rename_i h100
    simp [h100]

theorem lopsided_resigns :
    (MCTSTree.new lopsidedBoard Color.BLACK).root.shouldResign RESIGNATION_THRESHOLD = true := by
  show (MCTSNode.new lopsidedBoard Color.WHITE).shouldResign 60 = true
  rw [shouldResign_iff]
  exact ⟨by decide, Or.inl ⟨rfl,
    by rw [show (MCTSNode.new lopsidedBoard Color.WHITE).state.estimateScore =
              lopsidedBoard.estimateScore from rfl, lopsided_score]; norm_num⟩⟩

theorem Color.opposite_ne (c : Color) : c.opposite ≠ c := by cases c <;> decide

theorem stateAt_lt_length {b : Board} {j : Nat} (h : b.stateAt j ≠ State.OFFBOARD) :
    j < b.position.length := by
  by_contra hge
  exact h (List.getD_eq_default _ _ (Nat.le_of_not_lt hge))

theorem getD_set_self {α : Type} (l : List α) (i : Nat) (v d : α) (h : i < l.length) :
    (l.set i v).getD i d = v := by
  rw [List.getD_eq_getElem?_getD, List.getElem?_set_self h]; rfl

theorem getD_set_ne {α : Type} (l : List α) {i j : Nat} (v d : α) (h : i ≠ j) :
    (l.set i v).getD j d = l.getD j d := by
  rw [List.getD_eq_getElem?_getD, List.getElem?_set_ne h, ← List.getD_eq_getElem?_getD]

theorem from_some_bounds {size : BoardSize} {s : Nat} {x : Intersection}
    (h : Intersection.fromPositionIndex s size = some x) :
    s < (size.toNat + 2) * (size.toNat + 2) ∧
    ¬(s % (size.toNat + 2) = 0 ∨ s % (size.toNat + 2) = size.toNat + 1 ∨
      s / (size.toNat + 2) = 0 ∨ s / (size.toNat + 2) = size.toNat + 1) := by
  unfold Intersection.fromPositionIndex at h
  dsimp only at h
  split at h
  · exact absurd h (by simp)
  · rename_i hbig
    split at h
    · exact absurd h (by simp)
    · rename_i hborder
      refine ⟨Nat.lt_of_not_le (fun hle => hbig hle), ?_⟩
      intro hb
      rcases hb with hb | hb | hb | hb
      · exact hborder (Or.inl hb)
      · exact hborder (Or.inr (Or.inl (by omega)))
      · exact hborder (Or.inr (Or.inr (Or.inl hb)))
      · exact hborder (Or.inr (Or.inr (Or.inr (by omega))))

theorem to_some_bounds {size : BoardSize} {i : Intersection} {idx : Nat}
    (h : i.toPositionIndex size = some idx) :
    size.toNat + 3 ≤ idx ∧ idx < (size.toNat + 2) * (size.toNat + 2) ∧
    idx < 500 := by
  unfold Intersection.toPositionIndex at h
  dsimp only at h
  split at h
  · exact absurd h (by simp)
  · rename_i hguard
    push_neg at hguard
    obtain ⟨h1, h2, h3⟩ := hguard
    have hcol : i.column.toNat < size.toNat := Nat.lt_of_not_le (by exact fun hc => absurd hc (by omega))
    have heq : idx = i.column.toNat + (size.toNat + 2 - i.row - 1) * (size.toNat + 2) + 1 :=
      (Option.some.inj h).symm
    cases size <;> (simp only [BoardSize.toNat] at *; omega)

theorem addSigned_nonneg (idx k : Nat) (h : idx + k ≤ 2 ^ 64 - 1) :
    addSignedToUnsigned idx (k : Int) = some (idx + k) := by
  unfold addSignedToUnsigned USIZE_MAX
  rw [if_pos (by positivity), if_neg (by simp; omega)]
  simp

theorem addSigned_neg (idx k : Nat) (hk : 1 ≤ k) (h : k ≤ idx) :
    addSignedToUnsigned idx (-(k : Int)) = some (idx - k) := by
  unfold addSignedToUnsigned
  rw [if_neg (by omega), if_neg (by simp; omega)]
  simp

theorem addSigned_inv {base : Nat} {d : Int} {s : Nat}
    (h : addSignedToUnsigned base d = some s) : (s : Int) = (base : Int) + d := by
  unfold addSignedToUnsigned USIZE_MAX at h
  split at h
  · dsimp only at h
    split at h
    · exact absurd h (by simp)
    · rename_i hnn _
      have hs := Option.some.inj h
      omega
  · dsimp only at h
    split at h
    · exact absurd h (by simp)
    · rename_i hneg hle
      have hs := Option.some.inj h
      omega

theorem addSigned_one {idx : Nat} (h : idx < 500) :
    addSignedToUnsigned idx 1 = some (idx + 1) := by
  rw [show (1 : Int) = ((1 : Nat) : Int) from rfl, addSigned_nonneg idx 1 (by omega)]

theorem addSigned_neg_one {idx : Nat} (h : 1 ≤ idx) :
    addSignedToUnsigned idx (-1) = some (idx - 1) := by
  rw [show (-1 : Int) = -((1 : Nat) : Int) from rfl, addSigned_neg idx 1 le_rfl h]

theorem addSigned_stride (size : BoardSize) {idx : Nat} (h : idx < 500) :
    addSignedToUnsigned idx ((size.toNat : Int) + 2) = some (idx + (size.toNat + 2)) := by
  rw [show ((size.toNat : Int) + 2) = (((size.toNat + 2 : Nat)) : Int) from by push_cast; ring,
      addSigned_nonneg idx (size.toNat + 2) (by cases size <;> simp [BoardSize.toNat] <;> omega)]

theorem addSigned_neg_stride (size : BoardSize) {idx : Nat} (h : size.toNat + 2 ≤ idx) :
    addSignedToUnsigned idx (-(size.toNat : Int) - 2) = some (idx - (size.toNat + 2)) := by
  rw [show (-(size.toNat : Int) - 2) = -(((size.toNat + 2 : Nat)) : Int) from by push_cast; ring,
      addSigned_neg idx (size.toNat + 2) (by omega) h]

theorem to_some_coords {size : BoardSize} {i : Intersection} {idx : Nat}
    (h : i.toPositionIndex size = some idx) :
    i.column.toNat < size.toNat ∧ 1 ≤ i.row ∧ i.row ≤ size.toNat := by
  unfold Intersection.toPositionIndex at h
  dsimp only at h
  split at h
  · exact absurd h (by simp)
  · rename_i hguard
    push_neg at hguard
    exact ⟨by omega, by omega, by omega⟩

theorem from_to_inverse_decide :
    ∀ (size : BoardSize), ∀ s < (size.toNat + 2) * (size.toNat + 2),
      (match Intersection.fromPositionIndex s size with
       | some x => decide (x.toPositionIndex size = some s)
       | none => true) = true := by decide

theorem from_to_inverse {size : BoardSize} {s : Nat} {x : Intersection}
    (h : Intersection.fromPositionIndex s size = some x) :
    x.toPositionIndex size = some s := by
  have hd := from_to_inverse_decide size s (from_some_bounds h).1
  rw [h] at hd
  exact of_decide_eq_true hd

theorem to_from_inverse_decide :
    ∀ (size : BoardSize) (c : ColumnIdentifier), ∀ r < 20,
      (match Intersection.toPositionIndex ⟨c, r⟩ size with
       | some idx => decide (Intersection.fromPositionIndex idx size = some ⟨c, r⟩)
       | none => true) = true := by decide

theorem to_from_inverse {size : BoardSize} {i : Intersection} {idx : Nat}
    (h : i.toPositionIndex size = some idx) :
    Intersection.fromPositionIndex idx size = some i := by
  obtain ⟨-, -, hr⟩ := to_some_coords h
  have hd := to_from_inverse_decide size i.column i.row
    (by cases size <;> simp [BoardSize.toNat] at hr <;> omega)
  rw [show (⟨i.column, i.row⟩ : Intersection) = i from rfl, h] at hd
  exact of_decide_eq_true hd

theorem from_isSome_decide :
    ∀ (size : BoardSize), ∀ s < (size.toNat + 2) * (size.toNat + 2),
      (s % (size.toNat + 2) = 0 ∨ s % (size.toNat + 2) = size.toNat + 1 ∨
       s / (size.toNat + 2) = 0 ∨ s / (size.toNat + 2) = size.toNat + 1) ∨
      (Intersection.fromPositionIndex s size).isSome = true := by decide

theorem from_of_inboard {b : Board} (hwf : b.WF) {s : Nat}
    (h : b.stateAt s ≠ State.OFFBOARD) :
    ∃ sI, Intersection.fromPositionIndex s b.size = some sI := by
  have hlen : s < b.position.length := stateAt_lt_length h
  have hlen2 : s < (b.size.toNat + 2) * (b.size.toNat + 2) := hwf.1 ▸ hlen
  rcases from_isSome_decide b.size s hlen2 with hb | hs
  · exact absurd (hwf.2 s hlen hb) h
  · exact Option.isSome_iff_exists.mp hs

theorem WF_set {b : Board} (hwf : b.WF) {idx : Nat} {i : Intersection}
    (hidx : i.toPositionIndex b.size = some idx) (v : State) :
    ({ b with position := b.position.set idx v } : Board).WF := by
  have hnb := (from_some_bounds (to_from_inverse hidx)).2
  refine ⟨by simpa [List.length_set] using hwf.1, ?_⟩
  intro j hj hb
  rw [List.length_set] at hj
  by_cases hji : idx = j
  · subst hji; exact absurd hb hnb
  · show (b.position.set idx v).getD j _ = _
    rw [getD_set_ne _ _ _ hji]
    exact hwf.2 j hj hb

theorem countHelp_succ (b : Board) (c : Color) (n idx : Nat) (g l : List Intersection) :
    countHelp b c (n + 1) idx g l =
      (match b.stateAt idx with
       | State.OCCUPIED c0 =>
         if c0 = c then
           match Intersection.fromPositionIndex idx b.size with
           | none => (g, l)
           | some intsc =>
             if intsc ∈ g then (g, l)
             else
               let acc1 := countHelp b c n (idx + 1) (intsc :: g) l
               let acc2 := countHelp b c n (idx - 1) acc1.1 acc1.2
               let acc3 := countHelp b c n (idx + (b.size.toNat + 2)) acc2.1 acc2.2
               countHelp b c n (idx - (b.size.toNat + 2)) acc3.1 acc3.2
         else (g, l)
       | State.EMPTY =>
         match Intersection.fromPositionIndex idx b.size with
         | none => (g, l)
         | some intsc => if intsc ∈ l then (g, l) else (g, intsc :: l)
       | State.OFFBOARD => (g, l)) := rfl

theorem countHelp_mono (b : Board) (c : Color) :
    ∀ (fuel idx : Nat) (g l : List Intersection),
      g ⊆ (countHelp b c fuel idx g l).1 ∧ l ⊆ (countHelp b c fuel idx g l).2 := by
  intro fuel
  induction fuel with
  | zero => exact fun idx g l => ⟨List.Subset.refl g, List.Subset.refl l⟩
  | succ n ih =>
    intro idx g l
    rw [countHelp_succ]
    cases hst : b.stateAt idx with
    | OFFBOARD => exact ⟨List.Subset.refl g, List.Subset.refl l⟩
    | EMPTY =>
      cases hf : Intersection.fromPositionIndex idx b.size with
      | none => exact ⟨List.Subset.refl g, List.Subset.refl l⟩
      | some intsc =>
        dsimp only
        split
        · exact ⟨List.Subset.refl g, List.Subset.refl l⟩
        · exact ⟨List.Subset.refl g, List.subset_cons_self intsc l⟩
    | OCCUPIED c0 =>
      dsimp only
      split
      · cases hf : Intersection.fromPositionIndex idx b.size with
        | none => exact ⟨List.Subset.refl g, List.Subset.refl l⟩
        | some intsc =>
          dsimp only
          split
          · exact ⟨List.Subset.refl g, List.Subset.refl l⟩
          · obtain ⟨g1, l1⟩ := ih (idx + 1) (intsc :: g) l
            obtain ⟨g2, l2⟩ := ih (idx - 1) (countHelp b c n (idx + 1) (intsc :: g) l).1
              (countHelp b c n (idx + 1) (intsc :: g) l).2
            obtain ⟨g3, l3⟩ := ih (idx + (b.size.toNat + 2)) _ _
            obtain ⟨g4, l4⟩ := ih (idx - (b.size.toNat + 2)) _ _
            exact ⟨((List.subset_cons_self intsc g).trans g1).trans ((g2.trans g3).trans g4),
                   (l1.trans (l2.trans l3)).trans l4⟩
      · exact ⟨List.Subset.refl g, List.Subset.refl l⟩

theorem countHelp_group_spec (b : Board) (c : Color) :
    ∀ (fuel idx : Nat) (g l : List Intersection) (x : Intersection),
      x ∈ (countHelp b c fuel idx g l).1 →
      x ∈ g ∨ ∃ s, b.stateAt s = State.OCCUPIED c ∧
                    Intersection.fromPositionIndex s b.size = some x := by
  intro fuel
  induction fuel with
  | zero => exact fun idx g l x hx => Or.inl hx
  | succ n ih =>
    intro idx g l x hx
    rw [countHelp_succ] at hx
    cases hst : b.stateAt idx with
    | OFFBOARD => rw [hst] at hx; exact Or.inl hx
    | EMPTY =>
      rw [hst] at hx
      cases hf : Intersection.fromPositionIndex idx b.size with
      | none => rw [hf] at hx; exact Or.inl hx
      | some intsc =>
        rw [hf] at hx
        dsimp only at hx
        split at hx
        · exact Or.inl hx
        · exact Or.inl hx
    | OCCUPIED c0 =>
      rw [hst] at hx
      dsimp only at hx
      split at hx
      · rename_i hc0
        subst hc0
        cases hf : Intersection.fromPositionIndex idx b.size with
        | none => rw [hf] at hx; exact Or.inl hx
        | some intsc =>
          rw [hf] at hx
          dsimp only at hx
          split at hx
          · exact Or.inl hx
          · rcases ih _ _ _ _ hx with h4 | h4
            · rcases ih _ _ _ _ h4 with h3 | h3
              · rcases ih _ _ _ _ h3 with h2 | h2
                · rcases ih _ _ _ _ h2 with h1 | h1
                  · rcases List.mem_cons.mp h1 with hxi | hxg
                    · exact Or.inr ⟨idx, hst, by rw [hxi]; exact hf⟩
                    · exact Or.inl hxg
                  · exact Or.inr h1
                · exact Or.inr h2
              · exact Or.inr h3
            · exact Or.inr h4
      · exact Or.inl hx

theorem countHelp_empty_mem (b : Board) (c : Color) {idx : Nat} {sI : Intersection}
    (n : Nat) (g l : List Intersection)
    (hst : b.stateAt idx = State.EMPTY)
    (hf : Intersection.fromPositionIndex idx b.size = some sI) :
    sI ∈ (countHelp b c (n + 1) idx g l).2 := by
  rw [countHelp_succ, hst, hf]
  dsimp only
  split
  · rename_i hmem; exact hmem
  · exact List.mem_cons_self sI l

theorem count_offboard {b : Board} {s : Nat} (c : Color)
    (hst : b.stateAt s = State.OFFBOARD) : b.count s c = ([], []) := by
  rw [Board.count, countHelp_succ, hst]

theorem count_other_color {b : Board} {s : Nat} {c c0 : Color}
    (hst : b.stateAt s = State.OCCUPIED c0) (hne : ¬(c0 = c)) :
    b.count s c = ([], []) := by
  rw [Board.count, countHelp_succ, hst]
  dsimp only
  rw [if_neg hne]

theorem count_empty_group {b : Board} {s : Nat} (c : Color)
    (hst : b.stateAt s = State.EMPTY) : (b.count s c).1 = [] := by
  rw [Board.count, countHelp_succ, hst]
  cases hf : Intersection.fromPositionIndex s b.size with
  | none => rfl
  | some intsc =>
    dsimp only
    split
    · rfl
    · rfl

theorem count_empty_libs {b : Board} {s : Nat} {sI : Intersection} (c : Color)
    (hst : b.stateAt s = State.EMPTY)
    (hf : Intersection.fromPositionIndex s b.size = some sI) :
    (b.count s c).2 = [sI] := by
  rw [Board.count, countHelp_succ, hst, hf]
  dsimp only
  rw [if_neg (List.not_mem_nil sI)]

theorem count_nonempty_group {b : Board} {s : Nat} {c : Color}
    (h : (b.count s c).1 ≠ []) :
    ∃ sI, b.stateAt s = State.OCCUPIED c ∧
          Intersection.fromPositionIndex s b.size = some sI ∧
          sI ∈ (b.count s c).1 := by
  cases hst : b.stateAt s with
  | OFFBOARD => exact absurd (congrArg Prod.fst (count_offboard c hst)) h
  | EMPTY => exact absurd (count_empty_group c hst) h
  | OCCUPIED c0 =>
    by_cases hc : c0 = c
    · subst hc
      cases hf : Intersection.fromPositionIndex s b.size with
      | none =>
        rw [Board.count, countHelp_succ, hst, hf] at h
        dsimp only at h
        rw [if_pos rfl] at h
        exact absurd rfl h
      | some sI =>
        refine ⟨sI, rfl, rfl, ?_⟩
        rw [Board.count, countHelp_succ, hst, hf]
        dsimp only
        rw [if_pos rfl, if_neg (List.not_mem_nil sI)]
        exact (countHelp_mono b c0 b.position.length (s - (b.size.toNat + 2)) _ _).1
          ((countHelp_mono b c0 b.position.length (s + (b.size.toNat + 2)) _ _).1
            ((countHelp_mono b c0 b.position.length (s - 1) _ _).1
              ((countHelp_mono b c0 b.position.length (s + 1) _ _).1
                (List.mem_cons_self sI []))))
    · exact absurd (congrArg Prod.fst (count_other_color hst hc)) h

theorem count_seed_liberty (b : Board) (c : Color) {idx s : Nat} {i sI : Intersection}
    (F : Nat)
    (hst : b.stateAt idx = State.OCCUPIED c)
    (hfi : Intersection.fromPositionIndex idx b.size = some i)
    (hs : s = idx + 1 ∨ s = idx - 1 ∨ s = idx + (b.size.toNat + 2) ∨
          s = idx - (b.size.toNat + 2))
    (hse : b.stateAt s = State.EMPTY)
    (hfs : Intersection.fromPositionIndex s b.size = some sI) :
    sI ∈ (countHelp b c (F + 2) idx [] []).2 := by
  rw [countHelp_succ, hst]
  dsimp only
  rw [if_pos rfl, hfi]
  dsimp only
  rw [if_neg (List.not_mem_nil i)]
  rcases hs with hs | hs | hs | hs
  · subst hs
    exact (countHelp_mono b c (F + 1) (idx - (b.size.toNat + 2)) _ _).2
      ((countHelp_mono b c (F + 1) (idx + (b.size.toNat + 2)) _ _).2
        ((countHelp_mono b c (F + 1) (idx - 1) _ _).2
          (countHelp_empty_mem b c F _ _ hse hfs)))
  · subst hs
    exact (countHelp_mono b c (F + 1) (idx - (b.size.toNat + 2)) _ _).2
      ((countHelp_mono b c (F + 1) (idx + (b.size.toNat + 2)) _ _).2
        (countHelp_empty_mem b c F _ _ hse hfs))
  · subst hs
    exact (countHelp_mono b c (F + 1) (idx - (b.size.toNat + 2)) _ _).2
      (countHelp_empty_mem b c F _ _ hse hfs)
  · subst hs
    exact countHelp_empty_mem b c F _ _ hse hfs

theorem captureGroup_nil (b : Board) (c : Color) : b.captureGroup [] c = b := by
  cases c <;> rfl

theorem captureGroup_fields (b : Board) (g : List Intersection) (c : Color) :
    (b.captureGroup g c).size = b.size ∧ (b.captureGroup g c).ko = b.ko ∧
    (b.captureGroup g c).side = b.side ∧ (b.captureGroup g c).lastMove = b.lastMove ∧
    (b.captureGroup g c).moveNumber = b.moveNumber ∧ (b.captureGroup g c).komi = b.komi := by
  cases c <;> exact ⟨rfl, rfl, rfl, rfl, rfl, rfl⟩

theorem capturePos_length (size : BoardSize) :
    ∀ (g : List Intersection) (pos : List State),
      (g.foldl (fun pos intsc =>
        match intsc.toPositionIndex size with
        | some stone => pos.set stone State.EMPTY
        | none => pos) pos).length = pos.length := by
  intro g
  induction g with
  | nil => intro pos; rfl
  | cons y rest ih =>
    intro pos
    rw [List.foldl_cons, ih]
    cases hy : y.toPositionIndex size with
    | none => rfl
    | some t => exact List.length_set pos t State.EMPTY

theorem capturePos_getD (size : BoardSize) :
    ∀ (g : List Intersection) (pos : List State) (j : Nat) (d : State),
      (g.foldl (fun pos intsc =>
        match intsc.toPositionIndex size with
        | some stone => pos.set stone State.EMPTY
        | none => pos) pos).getD j d = pos.getD j d ∨
      (g.foldl (fun pos intsc =>
        match intsc.toPositionIndex size with
        | some stone => pos.set stone State.EMPTY
        | none => pos) pos).getD j d = State.EMPTY := by
  intro g
  induction g with
  | nil => intro pos j d; exact Or.inl rfl
  | cons y rest ih =>
    intro pos j d
    rw [List.foldl_cons]
    rcases ih _ j d with h | h
    · rw [h]
      cases hy : y.toPositionIndex size with
      | none => exact Or.inl rfl
      | some t =>
        dsimp only
        by_cases htj : t = j
        · subst htj
          by_cases hlt : t < pos.length
          · exact Or.inr (getD_set_self pos t State.EMPTY d hlt)
          · rw [List.set_eq_of_length_le (Nat.le_of_not_lt hlt)]
            exact Or.inl rfl
        · exact Or.inl (getD_set_ne pos State.EMPTY d htj)
    · exact Or.inr h

theorem capturePos_target (size : BoardSize) :
    ∀ (g : List Intersection) (pos : List State) (x : Intersection) (t : Nat) (d : State),
      x ∈ g → x.toPositionIndex size = some t → t < pos.length →
      (g.foldl (fun pos intsc =>
        match intsc.toPositionIndex size with
        | some stone => pos.set stone State.EMPTY
        | none => pos) pos).getD t d = State.EMPTY := by
  intro g
  induction g with
  | nil => intro pos x t d hx; exact absurd hx (List.not_mem_nil x)
  | cons y rest ih =>
    intro pos x t d hx hto hlt
    rw [List.foldl_cons]
    rcases List.mem_cons.mp hx with hxy | hxr
    · subst hxy
      rw [hto]
      dsimp only
      have hset : (pos.set t State.EMPTY).getD t d = State.EMPTY :=
        getD_set_self pos t State.EMPTY d hlt
      rcases capturePos_getD size rest (pos.set t State.EMPTY) t d with h | h
      · rw [h, hset]
      · exact h
    · refine ih _ x t d hxr hto ?_
      cases hy : y.toPositionIndex size with
      | none => exact hlt
      | some u => simpa [List.length_set] using hlt

theorem capturePos_nontarget (size : BoardSize) :
    ∀ (g : List Intersection) (pos : List State) (j : Nat) (d : State),
      (∀ x ∈ g, ∀ t, x.toPositionIndex size = some t → t ≠ j) →
      (g.foldl (fun pos intsc =>
        match intsc.toPositionIndex size with
        | some stone => pos.set stone State.EMPTY
        | none => pos) pos).getD j d = pos.getD j d := by
  intro g
  induction g with
  | nil => intro pos j d _; rfl
  | cons y rest ih =>
    intro pos j d hg
    rw [List.foldl_cons, ih _ j d (fun x hx => hg x (List.mem_cons_of_mem y hx))]
    cases hy : y.toPositionIndex size with
    | none => rfl
    | some t => exact getD_set_ne pos State.EMPTY d (hg y (List.mem_cons_self y rest) t hy)

theorem captureGroup_length (b : Board) (g : List Intersection) (c : Color) :
    (b.captureGroup g c).position.length = b.position.length := by
  cases c <;> exact capturePos_length b.size g b.position

theorem captureGroup_stateAt (b : Board) (g : List Intersection) (c : Color) (j : Nat) :
    (b.captureGroup g c).stateAt j = b.stateAt j ∨
    (b.captureGroup g c).stateAt j = State.EMPTY := by
  cases c <;> exact capturePos_getD b.size g b.position j State.OFFBOARD

theorem captureGroup_stateAt_target (b : Board) (g : List Intersection) (c : Color)
    {x : Intersection} {t : Nat} (hx : x ∈ g) (hto : x.toPositionIndex b.size = some t)
    (hlt : t < b.position.length) :
    (b.captureGroup g c).stateAt t = State.EMPTY := by
  cases c <;> exact capturePos_target b.size g b.position x t State.OFFBOARD hx hto hlt

theorem captureGroup_stateAt_ne (b : Board) (g : List Intersection) (c : Color) {j : Nat}
    (hg : ∀ x ∈ g, ∀ t, x.toPositionIndex b.size = some t → t ≠ j) :
    (b.captureGroup g c).stateAt j = b.stateAt j := by
  cases c <;> exact capturePos_nontarget b.size g b.position j State.OFFBOARD hg

theorem captureStep_no_change (pl : Intersection) (idx : Nat) (c : Color)
    (acc : Board × Option Intersection) (dir : Int)
    (h : ∀ s, addSignedToUnsigned idx dir = some s →
         (acc.1.count s c.opposite).1 = [] ∨ (acc.1.count s c.opposite).2 ≠ []) :
    captureStep pl idx c acc dir = acc := by
  unfold captureStep
  cases hadd : addSignedToUnsigned idx dir with
  | none => rfl
  | some s =>
    dsimp only
    rcases h s hadd with hg | hl
    · rw [hg]
      split
      · rw [if_neg (by simp), captureGroup_nil]
      · rfl
    · rw [if_neg (fun h0 => hl (List.length_eq_zero.mp h0))]

theorem captureStep_capture (pl : Intersection) (idx : Nat) (c : Color)
    (cur : Board) (ko : Option Intersection) (dir : Int) (s : Nat) (sI : Intersection)
    (hadd : addSignedToUnsigned idx dir = some s)
    (hlib : (cur.count s c.opposite).2 = [])
    (hfs : Intersection.fromPositionIndex s cur.size = some sI) :
    captureStep pl idx c (cur, ko) dir =
      (cur.captureGroup (cur.count s c.opposite).1 c,
       if (cur.count s c.opposite).1.length = 1 then
         match cur.diamond pl with
         | some c2 => if c2 ≠ c then some sI else ko
         | none => ko
       else ko) := by
  unfold captureStep
  rw [hadd]
  dsimp only
  rw [if_pos (by rw [hlib]; rfl), hfs]

theorem captureFold_no_change (pl : Intersection) (idx : Nat) (c : Color) :
    ∀ (dirs : List Int) (acc : Board × Option Intersection),
      (∀ d ∈ dirs, ∀ s, addSignedToUnsigned idx d = some s →
        (acc.1.count s c.opposite).1 = [] ∨ (acc.1.count s c.opposite).2 ≠ []) →
      dirs.foldl (captureStep pl idx c) acc = acc := by
  intro dirs
  induction dirs with
  | nil => intro acc _; rfl
  | cons d rest ih =>
    intro acc h
    rw [List.foldl_cons, captureStep_no_change pl idx c acc d (h d (List.mem_cons_self d rest))]
    exact ih acc (fun d2 hd2 => h d2 (List.mem_cons_of_mem d hd2))

theorem count_group_spec {b : Board} {s : Nat} {c : Color} {x : Intersection}
    (hx : x ∈ (b.count s c).1) :
    ∃ u, b.stateAt u = State.OCCUPIED c ∧
         Intersection.fromPositionIndex u b.size = some x := by
  rcases countHelp_group_spec b c (b.position.length + 1) s [] [] x hx with h | h
  · exact absurd h (List.not_mem_nil x)
  · exact h

/-- Invariant of the capture loop used by the rollback claim: the board in
the accumulator keeps its size, length and the placed stone, and is either
untouched or has some emptied neighbor of the placed stone. -/
theorem captureDirs_invariant (b1 : Board) (idx : Nat) (i : Intersection) (c : Color)
    (hlen : b1.position.length = (b1.size.toNat + 2) * (b1.size.toNat + 2))
    (hidxlt : idx < 500) :
    ∀ (dirs : List Int),
      (∀ d ∈ dirs, d = 1 ∨ d = -1 ∨ d = ((b1.size.toNat : Int) + 2) ∨
                   d = (-(b1.size.toNat : Int) - 2)) →
    ∀ (acc : Board × Option Intersection),
      acc.1.size = b1.size → acc.1.position.length = b1.position.length →
      acc.1.stateAt idx = State.OCCUPIED c →
      (acc.1 = b1 ∨ ∃ s sI,
        (s = idx + 1 ∨ s = idx - 1 ∨ s = idx + (b1.size.toNat + 2) ∨
         s = idx - (b1.size.toNat + 2)) ∧
        Intersection.fromPositionIndex s b1.size = some sI ∧
        acc.1.stateAt s = State.EMPTY) →
      ((dirs.foldl (captureStep i idx c) acc).1.size = b1.size ∧
       (dirs.foldl (captureStep i idx c) acc).1.position.length = b1.position.length ∧
       (dirs.foldl (captureStep i idx c) acc).1.stateAt idx = State.OCCUPIED c ∧
       ((dirs.foldl (captureStep i idx c) acc).1 = b1 ∨ ∃ s sI,
         (s = idx + 1 ∨ s = idx - 1 ∨ s = idx + (b1.size.toNat + 2) ∨
          s = idx - (b1.size.toNat + 2)) ∧
         Intersection.fromPositionIndex s b1.size = some sI ∧
         (dirs.foldl (captureStep i idx c) acc).1.stateAt s = State.EMPTY)) := by
  intro dirs
  induction dirs with
  | nil => exact fun _ acc h1 h2 h3 h4 => ⟨h1, h2, h3, h4⟩
  | cons d rest ih =>
    intro hdirs acc hsize hlength hocc hdisj
    rw [List.foldl_cons]
    cases hadd : addSignedToUnsigned idx d with
    | none =>
      have hstep : captureStep i idx c acc d = acc := by
        unfold captureStep; rw [hadd]
      rw [hstep]
      exact ih (fun d2 hd2 => hdirs d2 (List.mem_cons_of_mem d hd2)) acc hsize hlength hocc hdisj
    | some s =>
      by_cases hlib : (acc.1.count s c.opposite).2 = []
      · by_cases hgrp : (acc.1.count s c.opposite).1 = []
        · have hstep : captureStep i idx c acc d = acc :=
            captureStep_no_change i idx c acc d
              (fun s2 hs2 => by
                have he : s2 = s := Option.some.inj (hs2.symm.trans hadd)
                rw [he]; exact Or.inl hgrp)
          rw [hstep]
          exact ih (fun d2 hd2 => hdirs d2 (List.mem_cons_of_mem d hd2)) acc hsize hlength hocc hdisj
        · -- a real capture in direction d
          obtain ⟨sI, hstS, hfsS, hsImem⟩ := count_nonempty_group hgrp
          have hfsS1 : Intersection.fromPositionIndex s b1.size = some sI := hsize ▸ hfsS
          have hshape : s = idx + 1 ∨ s = idx - 1 ∨ s = idx + (b1.size.toNat + 2) ∨
              s = idx - (b1.size.toNat + 2) := by
            have hinv := addSigned_inv hadd
            rcases hdirs d (List.mem_cons_self d rest) with h1 | h1 | h1 | h1 <;>
              subst h1 <;> omega
          have hstep' : captureStep i idx c acc d =
              (acc.1.captureGroup (acc.1.count s c.opposite).1 c,
               if (acc.1.count s c.opposite).1.length = 1 then
                 match acc.1.diamond i with
                 | some c2 => if c2 ≠ c then some sI else acc.2
                 | none => acc.2
               else acc.2) := captureStep_capture i idx c acc.1 acc.2 d s sI hadd hlib hfsS
          rw [hstep']
          refine ih (fun d2 hd2 => hdirs d2 (List.mem_cons_of_mem d hd2)) _ ?_ ?_ ?_ ?_
          · exact ((captureGroup_fields acc.1 _ c).1).trans hsize
          · exact (captureGroup_length acc.1 _ c).trans hlength
          · have hg : ∀ x ∈ (acc.1.count s c.opposite).1, ∀ t,
                x.toPositionIndex acc.1.size = some t → t ≠ idx := by
              intro x hx t hto hti
              obtain ⟨u, hu, hfu⟩ := count_group_spec hx
              have hut : u = t := Option.some.inj ((from_to_inverse hfu).symm.trans hto)
              rw [hut, hti, hocc] at hu
              exact Color.opposite_ne c (State.OCCUPIED.inj hu).symm
            exact (captureGroup_stateAt_ne acc.1 _ c hg).trans hocc
          · refine Or.inr ⟨s, sI, hshape, hfsS1, ?_⟩
            have hto : sI.toPositionIndex acc.1.size = some s := from_to_inverse hfsS
            have hslt : s < acc.1.position.length := by
              rw [hlength, hlen]
              exact (from_some_bounds hfsS1).1
            exact captureGroup_stateAt_target acc.1 _ c hsImem hto hslt
      · have hstep : captureStep i idx c acc d = acc :=
          captureStep_no_change i idx c acc d
            (fun s2 hs2 => by
              have he : s2 = s := Option.some.inj (hs2.symm.trans hadd)
              rw [he]; exact Or.inr hlib)
        rw [hstep]
        exact ih (fun d2 hd2 => hdirs d2 (List.mem_cons_of_mem d hd2)) acc hsize hlength hocc hdisj

theorem get?_of_getD {α : Type} {l : List α} {i : Nat} {d v : α}
    (hlt : i < l.length) (h : l.getD i d = v) : l.get? i = some v := by
  rw [List.getD_eq_getElem?_getD, List.getElem?_eq_getElem hlt, Option.getD_some] at h
  rw [List.get?_eq_getElem?, List.getElem?_eq_getElem hlt, h]

theorem captureDirs_eq (b : Board) (idx : Nat) (i : Intersection) (c : Color) :
    captureDirs b idx i c =
      ([1, -1, ((b.size.toNat : Int) + 2), (-(b.size.toNat : Int) - 2)] : List Int).foldl
        (captureStep i idx c) (b, none) := rfl

/-- Every rejection path of `play_intersection` (ko, off-board, occupied,
suicide) returns the input board untouched; otherwise the call succeeds. -/
theorem playIntersection_failure_rollback (b : Board) (hwf : b.WF)
    (intsc : Intersection) (color : Color) :
    b.playIntersection intsc color = (false, b) ∨
    (b.playIntersection intsc color).1 = true := by
  unfold Board.playIntersection
  by_cases hko : b.ko = some intsc
  · rw [if_pos hko]; exact Or.inl rfl
  · rw [if_neg hko]
    cases hto : intsc.toPositionIndex b.size with
    | none => exact Or.inl rfl
    | some idx =>
      dsimp only
      by_cases hst : b.stateAt idx = State.EMPTY
      · rw [if_neg (by simp [hst])]
        have hidxlen : idx < b.position.length := stateAt_lt_length (by simp [hst])
        have hlt500 : idx < 500 := (to_some_bounds hto).2.2
        have hfi : Intersection.fromPositionIndex idx b.size = some intsc := to_from_inverse hto
        set B1 : Board := { b with position := b.position.set idx (State.OCCUPIED color) }
          with hB1
        have hb1occ : B1.stateAt idx = State.OCCUPIED color :=
          getD_set_self b.position idx _ _ hidxlen
        have hb1len : B1.position.length = (B1.size.toNat + 2) * (B1.size.toNat + 2) := by
          show (b.position.set idx (State.OCCUPIED color)).length =
            (b.size.toNat + 2) * (b.size.toNat + 2)
          rw [List.length_set]; exact hwf.1
        obtain ⟨hsz2, hlen2, hocc2, hdisj2⟩ :=
          captureDirs_invariant B1 idx intsc color hb1len hlt500
            [1, -1, ((B1.size.toNat : Int) + 2), (-(B1.size.toNat : Int) - 2)]
            (by
              intro d hd
              simp only [List.mem_cons, List.not_mem_nil, or_false] at hd
              rcases hd with h | h | h | h
              · exact Or.inl h
              · exact Or.inr (Or.inl h)
              · exact Or.inr (Or.inr (Or.inl h))
              · exact Or.inr (Or.inr (Or.inr h)))
            (B1, none) rfl rfl hb1occ (Or.inl rfl)
        rw [captureDirs_eq]
        set F2 := ([1, -1, ((B1.size.toNat : Int) + 2), (-(B1.size.toNat : Int) - 2)] :
          List Int).foldl (captureStep intsc idx color) (B1, none) with hF2
        by_cases hlib0 : (F2.1.count idx color).2.length = 0
        · rw [if_pos hlib0]
          refine Or.inl ?_
          have hF2B1 : F2.1 = B1 := by
            rcases hdisj2 with h | ⟨s, sI, hs, hfsS, hse⟩
            · exact h
            · exfalso
              have hfi2 : Intersection.fromPositionIndex idx F2.1.size = some intsc := by
                rw [hsz2]; exact hfi
              have hfs2 : Intersection.fromPositionIndex s F2.1.size = some sI := by
                rw [hsz2]; exact hfsS
              have hs2 : s = idx + 1 ∨ s = idx - 1 ∨ s = idx + (F2.1.size.toNat + 2) ∨
                  s = idx - (F2.1.size.toNat + 2) := by
                rw [hsz2]; exact hs
              have hlenpos : 1 ≤ F2.1.position.length := by
                rw [hlen2, hb1len]
                exact Nat.one_le_iff_ne_zero.mpr (Nat.mul_ne_zero (by omega) (by omega))
              have hmem : sI ∈ (F2.1.count idx color).2 := by
                rw [Board.count,
                  show F2.1.position.length + 1 = (F2.1.position.length - 1) + 2 from by omega]
                exact count_seed_liberty F2.1 color (F2.1.position.length - 1)
                  hocc2 hfi2 hs2 hse hfs2
              rw [List.length_eq_zero] at hlib0
              rw [hlib0] at hmem
              exact List.not_mem_nil sI hmem
          rw [hF2B1, hB1, List.set_set,
            list_set_self b.position idx State.EMPTY (get?_of_getD hidxlen hst)]
        · rw [if_neg hlib0]
          exact Or.inr rfl
      · rw [if_pos hst]
        exact Or.inl rfl

theorem dirNoCaptureB_spec {b : Board} {idx : Nat} {c : Color} {d : Int}
    (h : dirNoCaptureB b idx c d = true) :
    ∀ s, addSignedToUnsigned idx d = some s →
      (b.count s c.opposite).1 = [] ∨ (b.count s c.opposite).2 ≠ [] := by
  intro s hs
  unfold dirNoCaptureB at h
  rw [hs] at h
  simpa using h

/-- Single-capture scenario: with the capture loop split as
`preDirs ++ dirK :: postDirs`, no capture before or after `dirK` and a
libertyless opposing group in direction `dirK`, the move commits and its ko
point is the captured root exactly when that group is one stone and the
placed stone's own mid-loop diamond is a uniform color different from the
mover. -/
theorem ko_single_capture_aux (b : Board) (intsc : Intersection) (color : Color)
    (idx s : Nat) (sI : Intersection) (preDirs postDirs : List Int) (dirK : Int)
    (hko : b.ko ≠ some intsc)
    (hto : intsc.toPositionIndex b.size = some idx)
    (hempty : b.stateAt idx = State.EMPTY)
    (hsplit : ([1, -1, ((b.size.toNat : Int) + 2), (-(b.size.toNat : Int) - 2)] : List Int) =
      preDirs ++ dirK :: postDirs)
    (hpre : ∀ d ∈ preDirs, dirNoCaptureB (placedBoard b idx color) idx color d = true)
    (hadd : addSignedToUnsigned idx dirK = some s)
    (hlib : ((placedBoard b idx color).count s color.opposite).2 = [])
    (hfs : Intersection.fromPositionIndex s b.size = some sI)
    (hpost : ∀ d ∈ postDirs, dirNoCaptureB
      ((placedBoard b idx color).captureGroup
        ((placedBoard b idx color).count s color.opposite).1 color) idx color d = true)
    (hfreed : (((placedBoard b idx color).captureGroup
        ((placedBoard b idx color).count s color.opposite).1 color).count idx
          color).2.length ≠ 0) :
    (b.play (Move.MOVE intsc color)).1 = true ∧
    (b.play (Move.MOVE intsc color)).2.ko =
      (if ((placedBoard b idx color).count s color.opposite).1.length = 1 then
         match (placedBoard b idx color).diamond intsc with
         | some c2 => if c2 ≠ color then some sI else none
         | none => none
       else none) := by
  have hfs2 : Intersection.fromPositionIndex s (placedBoard b idx color).size = some sI := hfs
  have hcd : captureDirs (placedBoard b idx color) idx intsc color =
      ((placedBoard b idx color).captureGroup
        ((placedBoard b idx color).count s color.opposite).1 color,
       if ((placedBoard b idx color).count s color.opposite).1.length = 1 then
         match (placedBoard b idx color).diamond intsc with
         | some c2 => if c2 ≠ color then some sI else none
         | none => none
       else none) := by
    rw [captureDirs_eq]
    have hlist : ([1, -1, (((placedBoard b idx color).size.toNat : Int) + 2),
        (-((placedBoard b idx color).size.toNat : Int) - 2)] : List Int) =
        preDirs ++ dirK :: postDirs := hsplit
    rw [hlist, List.foldl_append, List.foldl_cons]
    rw [captureFold_no_change intsc idx color preDirs (placedBoard b idx color, none)
      (fun d hd => dirNoCaptureB_spec (hpre d hd))]
    rw [captureStep_capture intsc idx color (placedBoard b idx color) none dirK s sI
      hadd hlib hfs2]
    exact captureFold_no_change intsc idx color postDirs _
      (fun d hd => dirNoCaptureB_spec (hpost d hd))
  have hcd2 : captureDirs { b with position := b.position.set idx (State.OCCUPIED color) }
      idx intsc color = _ := hcd
  have hfreed2 : ((captureDirs { b with position := b.position.set idx (State.OCCUPIED color) }
      idx intsc color).1.count idx color).2.length ≠ 0 := by
    rw [hcd2]
    exact hfreed
  have hpl := playIntersection_success_eq b intsc color idx hko hto hempty hfreed2
  constructor
  · unfold Board.play
    dsimp only
    rw [hpl]
    rfl
  · unfold Board.play
    dsimp only
    rw [hpl, hcd2]
    rfl

/-- No-capture scenario: when no direction of the capture loop captures, a
committing move clears the ko point. -/
theorem ko_no_capture_aux (b : Board) (intsc : Intersection) (color : Color) (idx : Nat)
    (hko : b.ko ≠ some intsc)
    (hto : intsc.toPositionIndex b.size = some idx)
    (hempty : b.stateAt idx = State.EMPTY)
    (hnone : ∀ d ∈ ([1, -1, ((b.size.toNat : Int) + 2),
        (-(b.size.toNat : Int) - 2)] : List Int),
      dirNoCaptureB (placedBoard b idx color) idx color d = true)
    (hfreed : ((placedBoard b idx color).count idx color).2.length ≠ 0) :
    (b.play (Move.MOVE intsc color)).1 = true ∧
    (b.play (Move.MOVE intsc color)).2.ko = none := by
  have hcd : captureDirs (placedBoard b idx color) idx intsc color =
      (placedBoard b idx color, none) := by
    rw [captureDirs_eq]
    exact captureFold_no_change intsc idx color _ _
      (fun d hd => dirNoCaptureB_spec (hnone d hd))
  have hcd2 : captureDirs { b with position := b.position.set idx (State.OCCUPIED color) }
      idx intsc color = _ := hcd
  have hfreed2 : ((captureDirs { b with position := b.position.set idx (State.OCCUPIED color) }
      idx intsc color).1.count idx color).2.length ≠ 0 := by
    rw [hcd2]
    exact hfreed
  have hpl := playIntersection_success_eq b intsc color idx hko hto hempty hfreed2
  constructor
  · unfold Board.play
    dsimp only
    rw [hpl]
    rfl
  · unfold Board.play
    dsimp only
    rw [hpl, hcd2]
    rfl

/-! ## Claim theorems -/

/-- C8: for every supported board size (9, 13, 19) and every intersection
whose column index and row are in range for that size, converting the
intersection to its flat position index and back yields the original
intersection: `from_index (to_index i) = i`. -/
theorem c8_roundtrip :
    ∀ (size : BoardSize) (c : ColumnIdentifier) (r : Nat), r < size.toNat + 1 →
      1 ≤ r → c.toNat < size.toNat →
      (Intersection.toPositionIndex ⟨c, r⟩ size).bind
        (fun idx => Intersection.fromPositionIndex idx size) = some ⟨c, r⟩ := by decide

/-- Witness for `c8_roundtrip` at Q16 on a 19×19 board. -/
theorem c8_roundtrip_witness :
    (Intersection.toPositionIndex ⟨ColumnIdentifier.Q, 16⟩ BoardSize.NINETEEN).bind
      (fun idx => Intersection.fromPositionIndex idx BoardSize.NINETEEN) =
      some ⟨ColumnIdentifier.Q, 16⟩ :=
  c8_roundtrip BoardSize.NINETEEN ColumnIdentifier.Q 16 (by decide) (by decide) (by decide)

/-- C9 counterexample: the claim says `to_index` is absent for every
coordinate with row ≥ size, but row = size is an in-range top-row coordinate:
on a 9×9 board, (A, 9) maps to index 12 rather than to an absent result
(compare `test_intersection_from_position_index`, `src/tests.rs` line 193). -/
theorem c9_counterexample : ¬ ClaimC9 := fun h =>
  absurd (h BoardSize.NINE ⟨ColumnIdentifier.A, 9⟩ (Or.inr (Or.inl (by decide)))) (by decide)

/-- C9 amended: `to_index` returns an absent result for every coordinate with
column index ≥ size, row **strictly greater than** size, or row 0; and
`from_index` returns an absent result for every flat index beyond the array
or landing in the offboard border ring. -/
theorem c9_offboard_exclusion :
    (∀ (size : BoardSize) (i : Intersection),
        size.toNat ≤ i.column.toNat ∨ size.toNat < i.row ∨ i.row = 0 →
        i.toPositionIndex size = none) ∧
    (∀ (size : BoardSize) (idx : Nat),
        (size.toNat + 2) * (size.toNat + 2) ≤ idx ∨
        idx % (size.toNat + 2) = 0 ∨ idx % (size.toNat + 2) = size.toNat + 1 ∨
        idx / (size.toNat + 2) = 0 ∨ idx / (size.toNat + 2) = size.toNat + 1 →
        Intersection.fromPositionIndex idx size = none) := by
  constructor
  · intro size i h
    rw [Intersection.toPositionIndex]
    split
    · rfl
    · rename_i hguard
      exact absurd h hguard
  · intro size idx h
    rw [Intersection.fromPositionIndex]
    split
    · rfl
    · rename_i hbig
      dsimp only
      split
      · rfl
      · rename_i hborder
        rcases h with h | h
        · exact absurd h hbig
        · exact absurd h hborder

/-- Witness for `c9_offboard_exclusion`: row 10 is rejected on a 9×9 board,
and index 12 lands in the border ring of a 13×13 board. -/
theorem c9_witness :
    Intersection.toPositionIndex ⟨ColumnIdentifier.A, 10⟩ BoardSize.NINE = none ∧
    Intersection.fromPositionIndex 12 BoardSize.THIRTEEN = none :=
  ⟨c9_offboard_exclusion.1 BoardSize.NINE ⟨ColumnIdentifier.A, 10⟩ (Or.inr (Or.inl (by decide))),
   c9_offboard_exclusion.2 BoardSize.THIRTEEN 12 (Or.inr (Or.inr (Or.inr (Or.inl (by decide)))))⟩

/-- C4: what `Board::play` actually does on `PASS`, for every board: it
succeeds and increments the move counter, and changes **nothing** else — in
particular, contrary to the claim (and to the spec's stated intent, which the
newer draft's `update` implements), the side to move is *not* flipped. -/
theorem c4_pass_behavior :
    ∀ b : Board, b.play Move.PASS = (true, { b with moveNumber := b.moveNumber + 1 }) :=
  fun _ => rfl

/-- C1: in `play` of a Place move, capture detection is evaluated and applied
for all four neighbor directions of the placed stone before the suicide
check: for every board state and every placement passing the ko/occupancy
checks whose captures free at least one liberty for the placed stone's group
(liberty count zero before the capture loop, nonzero after it), the move
succeeds even though the placed stone would have zero liberties without those
captures. -/
theorem c1_captures_before_suicide (b : Board) (i : Intersection) (c : Color) (idx : Nat)
    (hko : b.ko ≠ some i)
    (hidx : i.toPositionIndex b.size = some idx)
    (hempty : b.stateAt idx = State.EMPTY)
    (hnolibs : (({ b with position := b.position.set idx (State.OCCUPIED c) } : Board).count idx c).2.length = 0)
    (hfreed : ((captureDirs { b with position := b.position.set idx (State.OCCUPIED c) } idx i c).1.count idx c).2.length ≠ 0) :
    (b.play (Move.MOVE i c)).1 = true := by
  have h := playIntersection_success_eq b i c idx hko hidx hempty hfreed
  simp [Board.play, h]

/-- Witness for `c1_captures_before_suicide`: White takes the ko at F4 in the
`test_play_intersection` position — the placed stone has zero liberties
before captures resolve, one after, and the move succeeds. -/
theorem c1_witness :
    (koPreBoard.ko ≠ some ⟨ColumnIdentifier.F, 4⟩ ∧
     Intersection.toPositionIndex ⟨ColumnIdentifier.F, 4⟩ koPreBoard.size = some 72 ∧
     koPreBoard.stateAt 72 = State.EMPTY ∧
     (({ koPreBoard with position := koPreBoard.position.set 72 (State.OCCUPIED Color.WHITE) } : Board).count 72 Color.WHITE).2.length = 0) ∧
    (koPreBoard.play (Move.MOVE ⟨ColumnIdentifier.F, 4⟩ Color.WHITE)).1 = true :=
  ⟨⟨by decide, by decide, by decide, by decide⟩,
   c1_captures_before_suicide koPreBoard ⟨ColumnIdentifier.F, 4⟩ Color.WHITE 72
     (by decide) (by decide) (by decide) (by decide) (by decide)⟩

/-- C10: `Board::play_intersection` does not enforce turn order — a placement
satisfying the occupancy, ko and suicide conditions succeeds for either
color, with no hypothesis relating the played color to the stored side to
move, and on success the side to move becomes the opposite of the *played*
color; only the newer draft's `update` message layer rejects out-of-turn
plays, with the turn check performed before anything else. -/
theorem c10_no_turn_enforcement :
    (∀ (b : Board) (i : Intersection) (c : Color) (idx : Nat),
       b.ko ≠ some i →
       i.toPositionIndex b.size = some idx →
       b.stateAt idx = State.EMPTY →
       ((captureDirs { b with position := b.position.set idx (State.OCCUPIED c) } idx i c).1.count idx c).2.length ≠ 0 →
       (b.playIntersection i c).1 = true ∧
       (b.playIntersection i c).2.side = c.opposite) ∧
    (∀ (ub : UBoard) (c : Color) (p : UPos),
       ub.playerTurn ≠ c →
       update ub (UMessage.Play c p) =
         (ub, Except.error "Playing this move violates the turn order")) := by
  constructor
  · intro b i c idx hko hidx hempty hfreed
    rw [playIntersection_success_eq b i c idx hko hidx hempty hfreed]
    exact ⟨rfl, rfl⟩
  · intro ub c p h
    simp only [update]
    rw [if_neg h]

/-- Witness for `c10_no_turn_enforcement`: on a fresh board with Black to
move, White successfully plays E5 and the side to move becomes Black again
(the opposite of the played color, not of the previous side), while the
`update` layer of the newer draft rejects the same out-of-turn play. -/
theorem c10_witness :
    ((Board.new BoardSize.NINE).side = Color.BLACK ∧
     ((Board.new BoardSize.NINE).playIntersection ⟨ColumnIdentifier.E, 5⟩ Color.WHITE).1 = true ∧
     ((Board.new BoardSize.NINE).playIntersection ⟨ColumnIdentifier.E, 5⟩ Color.WHITE).2.side = Color.BLACK) ∧
    (UBoard.new.playerTurn = Color.BLACK ∧
     update UBoard.new (UMessage.Play Color.WHITE ⟨3, 3⟩) =
       (UBoard.new, Except.error "Playing this move violates the turn order")) :=
  ⟨⟨by decide,
    (c10_no_turn_enforcement.1 (Board.new BoardSize.NINE) ⟨ColumnIdentifier.E, 5⟩ Color.WHITE 60
      (by decide) (by decide) (by decide) (by decide)).1,
    (c10_no_turn_enforcement.1 (Board.new BoardSize.NINE) ⟨ColumnIdentifier.E, 5⟩ Color.WHITE 60
      (by decide) (by decide) (by decide) (by decide)).2⟩,
   ⟨rfl, c10_no_turn_enforcement.2 UBoard.new Color.WHITE ⟨3, 3⟩ (by decide)⟩⟩

/-- C6: what backpropagation actually does.  `MCTSNode::new` initializes
`parent` to `None` and `MCTSTree::set_child` never assigns the child's
`parent` field, so every node's parent stays `None` forever; starting at a
simulation's terminal node, `backpropagation` therefore increments that
node's visit count (and its win count when the score favors its
`played_last_move` color) and stops — the parent chain never reaches the
root, whose visit count stays 0, contradicting the claim that every node up
to and including the root is updated. -/
theorem c6_backprop_never_reaches_root :
    (∀ (s : Board) (c : Color), (MCTSNode.new s c).parent = none) ∧
    (∀ (t : MCTSTree) (pIdx cIdx : Nat),
       (t.setChild pIdx cIdx).arena.map MCTSNode.parent = t.arena.map MCTSNode.parent) ∧
    c6Tree.root.children = [1] ∧
    ((c6Tree.backpropagation 1 1).arena.getD 1
        (MCTSNode.new (Board.new BoardSize.NINE) Color.WHITE)).totalVisits = 1 ∧
    ((c6Tree.backpropagation 1 1).arena.getD 1
        (MCTSNode.new (Board.new BoardSize.NINE) Color.WHITE)).winningVisits = 1 ∧
    (c6Tree.backpropagation 1 1).root.totalVisits = 0 := by
  have htree : c6Tree =
      { rootIndex := 0,
        arena := [{ MCTSNode.new (Board.new BoardSize.NINE) Color.WHITE with children := [1] },
                  MCTSNode.new c6ChildBoard Color.BLACK] } := by decide
  have hloop : ∀ (r ch : MCTSNode), ch.playedLastMove = Color.BLACK → ch.parent = none →
      backpropLoop 1 3 [r, ch] (some 1) =
        [r, { ch with winningVisits := ch.winningVisits + 1, totalVisits := ch.totalVisits + 1 }] := by
    intro r ch hc hp
    rw [backpropLoop]
    simp only [List.get?_cons_succ, List.get?_cons_zero]
    rw [if_pos ⟨by norm_num, hc⟩]
    dsimp only
    rw [hp]
    rfl
  have hbp : c6Tree.backpropagation 1 1 =
      { rootIndex := 0,
        arena := [{ MCTSNode.new (Board.new BoardSize.NINE) Color.WHITE with children := [1] },
                  { MCTSNode.new c6ChildBoard Color.BLACK with winningVisits := 1, totalVisits := 1 }] } := by
    rw [htree]
    unfold MCTSTree.backpropagation
    rw [if_pos (by decide)]
    simp only [List.length_cons, List.length_nil]
    rw [hloop _ _ rfl rfl]
    rfl
  refine ⟨fun s c => rfl, ?_, ?_, ?_, ?_, ?_⟩
  · intro t pIdx cIdx
    unfold MCTSTree.setChild
    split
    · rename_i hlt
      cases hget : t.arena.get? pIdx with
      | none => rfl
      | some parent =>
        simp only
        rw [List.map_set]
        show (t.arena.map MCTSNode.parent).set pIdx parent.parent = _
        apply list_set_self
        rw [List.get?_map, hget]; rfl
    · rfl
  · rw [htree]; rfl
  · rw [hbp]; rfl
  · rw [hbp]; rfl
  · rw [hbp]; rfl

/-- C7: a node signals resignation exactly when the board's move number
exceeds 100 and the estimated score is against the color to move by more than
the threshold (score below −threshold when Black is to move, above +threshold
when White is to move); with the fixed threshold 60.0, `generate_move` checks
this at the root before any iteration and returns Resign immediately when it
holds, whatever the search loop would do.  For the engineered test position
(estimated score −2.5, move number 101), the root for Black (which records
White as having played last) resigns at threshold 1.0 but not at 5.0, and the
root for White does not resign at threshold 1.0. -/
theorem c7_resignation :
    (∀ (node : MCTSNode) (thr : ℚ),
       node.shouldResign thr = true ↔
         (100 < node.state.moveNumber ∧
           ((node.playedLastMove.opposite = Color.BLACK ∧ node.state.estimateScore < -thr) ∨
            (node.playedLastMove.opposite = Color.WHITE ∧ thr < node.state.estimateScore)))) ∧
    (∀ (searchRest : MCTSTree → Nat → Move) (position : Board) (c : Color) (iterations : Nat),
       (MCTSTree.new position c).root.shouldResign RESIGNATION_THRESHOLD = true →
       generateMoveWith searchRest position c iterations = Move.RESIGN) ∧
    ((MCTSTree.new resignTestBoard Color.BLACK).root.playedLastMove = Color.WHITE ∧
     (MCTSTree.new resignTestBoard Color.WHITE).root.playedLastMove = Color.BLACK ∧
     (MCTSTree.new resignTestBoard Color.BLACK).root.shouldResign 1 = true ∧
     (MCTSTree.new resignTestBoard Color.BLACK).root.shouldResign 5 = false ∧
     (MCTSTree.new resignTestBoard Color.WHITE).root.shouldResign 1 = false) := by
  refine ⟨shouldResign_iff, ?_, rfl, rfl, ?_, ?_, ?_⟩
  · intro searchRest position c iterations h
    unfold generateMoveWith
    dsimp only
    rw [if_pos h]
  · show (MCTSNode.new resignTestBoard Color.WHITE).shouldResign 1 = true
    rw [shouldResign_iff]
    exact ⟨by decide, Or.inl ⟨rfl,
      by rw [show (MCTSNode.new resignTestBoard Color.WHITE).state.estimateScore =
                resignTestBoard.estimateScore from rfl, resignTestBoard_score]; norm_num⟩⟩
  · show (MCTSNode.new resignTestBoard Color.WHITE).shouldResign 5 = false
    have h5 : ¬((MCTSNode.new resignTestBoard Color.WHITE).shouldResign 5 = true) := by
      rw [shouldResign_iff]
      rintro ⟨-, h | h⟩
      · exact absurd h.2
          (by rw [show (MCTSNode.new resignTestBoard Color.WHITE).state.estimateScore =
                    resignTestBoard.estimateScore from rfl, resignTestBoard_score]; norm_num)
      · exact absurd h.1 (by decide)
    exact Bool.eq_false_iff.mpr h5
  · show (MCTSNode.new resignTestBoard Color.BLACK).shouldResign 1 = false
    have h1 : ¬((MCTSNode.new resignTestBoard Color.BLACK).shouldResign 1 = true) := by
      rw [shouldResign_iff]
      rintro ⟨-, h | h⟩
      · exact absurd h.1 (by decide)
      · exact absurd h.2
          (by rw [show (MCTSNode.new resignTestBoard Color.BLACK).state.estimateScore =
                    resignTestBoard.estimateScore from rfl, resignTestBoard_score]; norm_num)
    exact Bool.eq_false_iff.mpr h1

/-- Witness for `c7_resignation`: on a board past move 100 that is hopeless
for Black (estimated score −87.5, beyond the fixed threshold 60),
`generate_move` returns Resign before any search iteration, here with a
search loop stub that would otherwise return Pass. -/
theorem c7_witness :
    generateMoveWith (fun _ _ => Move.PASS) lopsidedBoard Color.BLACK 30 = Move.RESIGN :=
  c7_resignation.2.1 (fun _ _ => Move.PASS) lopsidedBoard Color.BLACK 30 lopsided_resigns

/-- C5 counterexample: the per-point area formula does not hold.  On a 9×9
board with a single Black stone at A1, `estimate_score` yields 82 − 6.5
(the stone is counted once as its own fill seed and once more inside the
adjacent empty region's fill), while the claimed formula yields
1 + 80 − 6.5. -/
theorem c5_counterexample : ¬ ClaimC5 := by
  intro h
  have hv := h loneStoneBoard
  rw [Board.estimateScore_def, loneStone_counts] at hv
  unfold claimC5Score at hv
  rw [loneStone_claim_black, loneStone_claim_white] at hv
  have h2 := sub_left_inj.mp hv
  norm_num at h2

/-- C5 amended: `estimate_score` credits each uniform empty region with its
empty points *plus* the stones visited by that region's fill, and also counts
a stone once when it is first reached as a fill seed, so a stone adjacent to
a uniform empty region is counted twice and the claimed per-point formula
fails in general (witnessed by the lone-stone board, where the code yields
75.5 and the formula 74.5); but on an empty board — in particular the empty
19×19 board with komi 6.5 — both agree and `estimate_score` is exactly −6.5. -/
theorem c5_empty_board_score :
    (∀ sz : BoardSize, (Board.new sz).estimateScore = -(13/2 : ℚ)) ∧
    loneStoneBoard.estimateScore = (151/2 : ℚ) ∧
    claimC5Score loneStoneBoard = (149/2 : ℚ) := by
  refine ⟨fun sz => ?_, ?_, ?_⟩
  · rw [Board.estimateScore_def, estimateCounts_new,
        show (Board.new sz).komi = defaultKomi from rfl, defaultKomi_eq]
    norm_num
  · rw [Board.estimateScore_def, loneStone_counts, loneStone_komi, defaultKomi_eq]
    norm_num
  · unfold claimC5Score
    rw [loneStone_claim_black, loneStone_claim_white, loneStone_komi, defaultKomi_eq]
    norm_num

/-- C2: whenever a Place move is rejected — because the target is the ko
point, off the board or occupied, or because the placement would be suicide —
`play` reports failure and the board it returns is exactly the input board:
grid, ko point, capture counts, side to move and move counter are all as they
were (the suicide path rolls the placed stone back to empty and nothing
else). -/
theorem c2_rejected_unchanged (b : Board) (intsc : Intersection) (color : Color)
    (hwf : b.WF) (hfail : (b.play (Move.MOVE intsc color)).1 = false) :
    (b.play (Move.MOVE intsc color)).2 = b := by
  rcases playIntersection_failure_rollback b hwf intsc color with h | h
  · unfold Board.play
    dsimp only
    rw [h]
    rfl
  · unfold Board.play at hfail
    dsimp only at hfail
    rw [if_pos h] at hfail
    exact absurd hfail (by simp)

/-- Witness for C2: on the one-stone board, White playing on the occupied
corner A1 fails and `play` hands back the identical board. -/
theorem c2_witness :
    loneStoneBoard.WF ∧
    (loneStoneBoard.play (Move.MOVE ⟨ColumnIdentifier.A, 1⟩ Color.WHITE)).1 = false ∧
    (loneStoneBoard.play (Move.MOVE ⟨ColumnIdentifier.A, 1⟩ Color.WHITE)).2 = loneStoneBoard :=
  ⟨by decide, by decide,
   c2_rejected_unchanged loneStoneBoard ⟨ColumnIdentifier.A, 1⟩ Color.WHITE
     (by decide) (by decide)⟩

/-- C3 (counterexample): taking the ko at F4 in the engineered 9×9 ko
position, White captures exactly the stone at F5, whose own four neighbors
are then all White — the mover's color, not its opposite — yet the code sets
the ko point to F5, because `play_intersection` evaluates the diamond at the
*placed* intersection, not at the captured point. -/
theorem c3_counterexample : ¬ClaimC3 := by
  intro h
  have h2 := (h koPreBoard ⟨ColumnIdentifier.F, 4⟩ Color.WHITE (by decide)).1
    ⟨ColumnIdentifier.F, 5⟩ (by decide)
  exact absurd (h2.2 (by decide)) (by decide)

/-- C3 (amended): the ko point after a successful Place move is produced by
the capture loop and keyed to the *placed* stone's diamond.  If exactly one
direction captures, the new ko point is the captured root point precisely
when the captured group is a single stone and the diamond around the placed
intersection (on the mid-loop board) is a uniform color different from the
mover; if no direction captures, the ko point is cleared to absent. -/
theorem c3_ko_characterization :
    (∀ (b : Board) (intsc : Intersection) (color : Color)
       (idx s : Nat) (sI : Intersection) (preDirs postDirs : List Int) (dirK : Int),
      b.ko ≠ some intsc →
      intsc.toPositionIndex b.size = some idx →
      b.stateAt idx = State.EMPTY →
      ([1, -1, ((b.size.toNat : Int) + 2), (-(b.size.toNat : Int) - 2)] : List Int) =
        preDirs ++ dirK :: postDirs →
      (∀ d ∈ preDirs, dirNoCaptureB (placedBoard b idx color) idx color d = true) →
      addSignedToUnsigned idx dirK = some s →
      ((placedBoard b idx color).count s color.opposite).2 = [] →
      Intersection.fromPositionIndex s b.size = some sI →
      (∀ d ∈ postDirs, dirNoCaptureB
        ((placedBoard b idx color).captureGroup
          ((placedBoard b idx color).count s color.opposite).1 color) idx color d = true) →
      (((placedBoard b idx color).captureGroup
          ((placedBoard b idx color).count s color.opposite).1 color).count idx
            color).2.length ≠ 0 →
      (b.play (Move.MOVE intsc color)).1 = true ∧
      (b.play (Move.MOVE intsc color)).2.ko =
        (if ((placedBoard b idx color).count s color.opposite).1.length = 1 then
           match (placedBoard b idx color).diamond intsc with
           | some c2 => if c2 ≠ color then some sI else none
           | none => none
         else none)) ∧
    (∀ (b : Board) (intsc : Intersection) (color : Color) (idx : Nat),
      b.ko ≠ some intsc →
      intsc.toPositionIndex b.size = some idx →
      b.stateAt idx = State.EMPTY →
      (∀ d ∈ ([1, -1, ((b.size.toNat : Int) + 2),
          (-(b.size.toNat : Int) - 2)] : List Int),
        dirNoCaptureB (placedBoard b idx color) idx color d = true) →
      ((placedBoard b idx color).count idx color).2.length ≠ 0 →
      (b.play (Move.MOVE intsc color)).1 = true ∧
      (b.play (Move.MOVE intsc color)).2.ko = none) :=
  ⟨ko_single_capture_aux, ko_no_capture_aux⟩

/-- Witness for the amended C3: White retaking at F4 in the ko position
captures the lone stone F5 and the resulting ko point is F5 (here the placed
stone's diamond is Black, the opposite of White); Black's first move on an
empty 9×9 board captures nothing and leaves the ko point absent. -/
theorem c3_witness :
    (koPreBoard.play (Move.MOVE ⟨ColumnIdentifier.F, 4⟩ Color.WHITE)).2.ko =
      some ⟨ColumnIdentifier.F, 5⟩ ∧
    ((Board.new BoardSize.NINE).play
      (Move.MOVE ⟨ColumnIdentifier.E, 5⟩ Color.BLACK)).2.ko = none := by
  constructor
  · have h := (c3_ko_characterization.1 koPreBoard ⟨ColumnIdentifier.F, 4⟩ Color.WHITE 72 61
      ⟨ColumnIdentifier.F, 5⟩ [1, -1, 11] [] (-11) (by decide) (by decide) (by decide)
      (by decide) (by decide) (by decide) (by decide) (by decide) (by decide) (by decide)).2
    rw [h]
    decide
  · exact (c3_ko_characterization.2 (Board.new BoardSize.NINE) ⟨ColumnIdentifier.E, 5⟩
      Color.BLACK 60 (by decide) (by decide) (by decide) (by decide) (by decide)).2

end GoEngine

